/-
  Verification of the mind-bloom game session engine.

  This file gives a shallow Lean embedding of the core logic of the
  mind-bloom repository (a suite of timed mini-games for children with
  behavioral telemetry) and proves properties of it:

  * the Behavioral Scoring Engine (`generateEmotionScore`, both the
    mockDatabase version and the GameContainer version),
  * the Session Controller (`handleGameOver` in GameContainer.tsx),
  * the Pattern-Recall game (MirrorMoves.tsx),
  * the Maze-Navigation game and its maze generator (recursive
    backtracking, MirrorMoves.tsx / MazeRunner),
  * the Grid-Growth (snake) game (SnakeGame.tsx),
  * the Progression Engine of mockDatabase.ts (streaks, daily
    challenges, achievements).

  Conventions used throughout:
  * JavaScript numbers are modelled as real numbers (`ℝ`) where the code
    computes with fractional values, as rationals (`ℚ`) where only exact
    division/floor is involved, and as `ℕ`/`ℤ` for integer counters and
    grid coordinates.
  * A JavaScript division whose denominator can be zero on valid inputs
    (yielding `NaN` or `±Infinity`) is modelled by `jsDiv`, which returns
    `none` in exactly that case; `none` then propagates like `NaN` does.
  * `Math.random()`-driven choices are modelled by an injected choice
    stream `rng : ℕ → ℕ`, reduced modulo the number of alternatives, so
    theorems quantify over every possible sequence of random draws.
  * Calendar days (`Date.toDateString()` comparisons) are modelled as
    integers counting days; "yesterday" is `today - 1`.
-/
import Mathlib

namespace MindBloom

/-! ## Shared basic types -/

/-- The four directional inputs (`'up' | 'down' | 'left' | 'right'`). -/
inductive Dir4 : Type
  | up
  | down
  | left
  | right
deriving DecidableEq, Repr

/-- The reverse of a direction.  Used to state the Grid-Growth
no-reversal property; the source writes the four comparisons out by
hand (`lastDirection !== 'down'` under `case 'ArrowUp'`, etc.). -/
def dirOpposite : Dir4 → Dir4
  | .up => .down
  | .down => .up
  | .left => .right
  | .right => .left

/-- The four game variants (`GameType` in types.ts). -/
inductive GameType : Type
  | mageRun
  | snakeGame
  | mirrorMoves
  | mazeRunner
deriving DecidableEq, Repr

/-- Difficulty of a level. -/
inductive Difficulty : Type
  | easy
  | medium
  | hard
deriving DecidableEq, Repr

/-- A game level (`GameLevel` in types.ts); the display name is omitted
as no claim depends on it. -/
structure GameLevel : Type where
  id : ℕ
  difficulty : Difficulty
  speed : ℚ
  obstacles : ℕ
  timeLimit : ℕ
deriving DecidableEq, Repr

/-- The level catalog of mockDatabase.ts (the second, adjusted version:
"Define game levels with adjusted difficulty for easy levels"). -/
def gameLevels : GameType → List GameLevel
  | .mageRun =>
    [⟨1, .easy, 7/10, 3, 80⟩, ⟨2, .medium, 12/10, 6, 60⟩, ⟨3, .hard, 18/10, 10, 50⟩]
  | .snakeGame =>
    [⟨1, .easy, 7/10, 0, 80⟩, ⟨2, .medium, 13/10, 2, 60⟩, ⟨3, .hard, 18/10, 4, 50⟩]
  | .mirrorMoves =>
    [⟨1, .easy, 7/10, 0, 60⟩, ⟨2, .medium, 13/10, 0, 45⟩, ⟨3, .hard, 18/10, 0, 35⟩]
  | .mazeRunner =>
    [⟨1, .easy, 8/10, 0, 80⟩, ⟨2, .medium, 1, 0, 75⟩, ⟨3, .hard, 1, 2, 90⟩]

/-! ## Progression Engine: streak update (mockDatabase.ts, saveGameResult)

The source compares `Date.toDateString()` values; we model a calendar
day as an integer day number, `today - 1` being yesterday. -/

/-- The child profile fields that the streak update touches. -/
structure ChildStreak : Type where
  streakDays : ℕ
  lastPlayDate : Option ℤ
deriving DecidableEq, Repr

/-- The streak computation of `saveGameResult`:

    if (!lastPlay) { streakDays = 1 }
    else if (lastPlay !== today) {
      if (lastPlay === yesterday) { streakDays += 1 } else { streakDays = 1 }
    }
-/
def streakUpdate (streakDays : ℕ) (lastPlayDate : Option ℤ) (today : ℤ) : ℕ :=
  match lastPlayDate with
  | none => 1
  | some lastPlay =>
    if lastPlay ≠ today then
      if lastPlay = today - 1 then streakDays + 1 else 1
    else streakDays

/-- The streak-relevant effect of `saveGameResult` on the child record:
update `streakDays` and then `child.lastPlayDate = new Date()`. -/
def saveGameResultStreak (child : ChildStreak) (today : ℤ) : ChildStreak :=
  { streakDays := streakUpdate child.streakDays child.lastPlayDate today
    lastPlayDate := some today }

/-! ## Grid-Growth (snake) game (SnakeGame.tsx)

Grid constants: GRID_SIZE = 20, CANVAS_WIDTH = 800, CANVAS_HEIGHT = 500,
so the playing field is (800/20) × (500/20) = 40 × 25 cells. -/

/-- The state of the snake game relevant to input handling and the move
tick.  Timers and the canvas are external. -/
structure SnakeState : Type where
  snake : List (ℤ × ℤ)
  food : ℤ × ℤ
  obstacles : List (ℤ × ℤ)
  direction : Dir4
  lastDirection : Dir4
  score : ℕ
  gameActive : Bool
  lastKeyPressTime : Option ℕ
deriving DecidableEq, Repr

/-- The `handleKeyDown` handler of SnakeGame.tsx.  It first records the
inter-key reaction time (returned as the second component, the argument
of `onReactionTime`), then ignores the key if the game is inactive, and
otherwise commits the new direction unless it is the exact reverse of
`lastDirection`. -/
def snakeHandleKey (s : SnakeState) (key : Dir4) (now : ℕ) : SnakeState × Option ℕ :=
  let reaction := s.lastKeyPressTime.map (fun t => now - t)
  let s1 := { s with lastKeyPressTime := some now }
  if !s.gameActive then (s1, reaction)
  else
    match key with
    | .up => (if s.lastDirection ≠ .down then { s1 with direction := .up } else s1, reaction)
    | .down => (if s.lastDirection ≠ .up then { s1 with direction := .down } else s1, reaction)
    | .left => (if s.lastDirection ≠ .right then { s1 with direction := .left } else s1, reaction)
    | .right => (if s.lastDirection ≠ .left then { s1 with direction := .right } else s1, reaction)

/-- One movement step applied to the head position. -/
def dirStep (d : Dir4) (p : ℤ × ℤ) : ℤ × ℤ :=
  match d with
  | .up => (p.1, p.2 - 1)
  | .down => (p.1, p.2 + 1)
  | .left => (p.1 - 1, p.2)
  | .right => (p.1 + 1, p.2)

/-- The `moveSnake` tick of SnakeGame.tsx.  `newFood` is the position
that `generateFood` eventually settles on (its rejection-resampling loop
is external randomness).  The second component is the terminal
`onGameOver (score, success)` event, if any.  `setLastDirection(direction)`
runs unconditionally at the end of `moveSnake` in the source, so every
branch commits `lastDirection := direction`.  The source never reaches an
empty snake (it starts with three segments and never shrinks); the empty
case is included only to make the function total. -/
def moveSnake (s : SnakeState) (newFood : ℤ × ℤ) : SnakeState × Option (ℕ × Bool) :=
  match s.snake with
  | [] => ({ s with lastDirection := s.direction }, none)
  | head :: _ =>
    let head' := dirStep s.direction head
    if head'.1 < 0 ∨ head'.1 ≥ 800 / 20 ∨ head'.2 < 0 ∨ head'.2 ≥ 500 / 20 then
      ({ s with gameActive := false, lastDirection := s.direction }, some (s.score, false))
    else if s.snake.contains head' then
      ({ s with gameActive := false, lastDirection := s.direction }, some (s.score, false))
    else if s.obstacles.contains head' then
      ({ s with gameActive := false, lastDirection := s.direction }, some (s.score, false))
    else if head' = s.food then
      let newScore := s.score + 10
      if newScore ≥ 100 then
        ({ s with snake := head' :: s.snake, food := newFood, score := newScore,
                  gameActive := false, lastDirection := s.direction }, some (newScore, true))
      else
        ({ s with snake := head' :: s.snake, food := newFood, score := newScore,
                  lastDirection := s.direction }, none)
    else
      ({ s with snake := head' :: s.snake.dropLast, lastDirection := s.direction }, none)

/-! ## Behavioral Scoring Engine

Two versions exist in the source: the "improved" `generateEmotionScore`
of mockDatabase.ts and the local `generateEmotionScore` of
GameContainer.tsx.  JavaScript floats are modelled as `ℝ`; the one
division whose denominator can vanish on valid inputs is modelled with
`jsDiv`, whose `none` result stands for the `NaN`/`±Infinity` the source
would produce and propagate into every output. -/

/-- The `EmotionScore` record of types.ts. -/
structure EmotionScore : Type where
  joy : ℝ
  frustration : ℝ
  engagement : ℝ
  focus : ℝ
  overall : ℝ

/-- All five outputs within their declared ranges (§4.5 of the spec). -/
def EmotionInRange (es : EmotionScore) : Prop :=
  0 ≤ es.joy ∧ es.joy ≤ 1 ∧
  0 ≤ es.frustration ∧ es.frustration ≤ 1 ∧
  0 ≤ es.engagement ∧ es.engagement ≤ 1 ∧
  0 ≤ es.focus ∧ es.focus ≤ 1 ∧
  -1 ≤ es.overall ∧ es.overall ≤ 1

/-- JavaScript division with a runtime denominator: `x / y` is a finite
float unless `y = 0`, in which case JavaScript yields `NaN` (for
`x = 0`) or `±Infinity` — both non-finite, both propagating through the
subsequent arithmetic — modelled uniformly as `none`. -/
noncomputable def jsDiv (x y : ℝ) : Option ℝ :=
  if y = 0 then none else some (x / y)

/-- The `standardDeviation` helper of GameContainer.tsx. -/
noncomputable def standardDeviation (values : List ℝ) : ℝ :=
  if values.length ≤ 1 then 0
  else
    let avg := values.sum / values.length
    let squareDiffs := values.map fun value => (value - avg) ^ 2
    Real.sqrt (squareDiffs.sum / squareDiffs.length)

/-- The emotion arithmetic of GameContainer.tsx's `generateEmotionScore`
after its three intermediates (average reaction time in seconds, time
efficiency, reaction-time consistency) have been computed.  All
denominators here are positive literals, so no division can fail. -/
noncomputable def emotionCoreGC (retryCount : ℕ) (successRate avgReactionTime
    timeEfficiency rtConsistency : ℝ) : EmotionScore :=
  let joy := min 1 (successRate * 0.7 + timeEfficiency * 0.3)
  let baseRetryFrustration := min 1 ((retryCount : ℝ) / 5)
  let reactionFrustration := min 1 (avgReactionTime / 2)
  let frustration := baseRetryFrustration * 0.7 + reactionFrustration * 0.3
  let engagement := rtConsistency * 0.6 + successRate * 0.4
  let focus := timeEfficiency * 0.5 + max 0 (1 - avgReactionTime / 2) * 0.5
  let overall := (joy + engagement + focus) / 3 - frustration
  ⟨joy, frustration, engagement, focus, max (-1) (min 1 overall)⟩

/-- GameContainer.tsx's `generateEmotionScore`.  Total: its divisions
are by `1000`, by a guarded positive length, by `Math.max(completionTime, 1) ≥ 1`,
and by positive literals. -/
noncomputable def generateEmotionScoreGC (completionTime timeLimit : ℝ) (retryCount : ℕ)
    (successRate : ℝ) (reactionTimes : List ℝ) : EmotionScore :=
  let avgReactionTime : ℝ :=
    if 0 < reactionTimes.length then reactionTimes.sum / reactionTimes.length / 1000 else 1
  let timeEfficiency := min 1 (timeLimit / max completionTime 1)
  let rtConsistency : ℝ :=
    if 1 < reactionTimes.length then 1 - min 1 (standardDeviation reactionTimes / 1000)
    else 0.5
  emotionCoreGC retryCount successRate avgReactionTime timeEfficiency rtConsistency

/-- The emotion arithmetic of mockDatabase.ts's improved
`generateEmotionScore`, given the average reaction time and the values
of the two divisions that can fail (the normalized reaction-time
variance and the raw `timeLimit / completionTime` ratio). -/
noncomputable def emotionCoreDB (retryCount : ℕ) (successRate avgReactionTime
    reactionTimeVariance timeEfficiencyRaw : ℝ) : EmotionScore :=
  let timeEfficiency := min timeEfficiencyRaw 1.5
  let normalizedTimeEfficiency := min (max timeEfficiency 0.5) 1.5 / 1.5
  let retryFactor := max 0 (1 - (retryCount : ℝ) * 0.15)
  let reactionSpeed := min (max (1 - (avgReactionTime - 200) / 800) 0) 1
  let reactionConsistency := min (max (1 - reactionTimeVariance) 0) 1
  let reactionFactor := reactionSpeed * 0.6 + reactionConsistency * 0.4
  let joy := successRate * 0.4 + normalizedTimeEfficiency * 0.3 + retryFactor * 0.1 +
    reactionConsistency * 0.2
  let frustration := (1 - successRate) * 0.3 + (retryCount : ℝ) * 0.15 +
    (1 - normalizedTimeEfficiency) * 0.15 + (1 - reactionConsistency) * 0.4
  let engagement := reactionFactor * 0.3 +
    (if 0 < retryCount then min 0.3 ((retryCount : ℝ) * 0.1) else 0) +
    successRate * 0.2 + min timeEfficiency 1 * 0.2
  let focus := reactionConsistency * 0.5 + normalizedTimeEfficiency * 0.3 +
    (1 - min ((retryCount : ℝ) * 0.1) 0.2)
  let overall := (joy * 0.35 + engagement * 0.25 + focus * 0.25) - frustration * 0.7
  ⟨min (max joy 0) 1, min (max frustration 0) 1, min (max engagement 0) 1,
    min (max focus 0) 1, min (max overall (-1)) 1⟩

/-- mockDatabase.ts's improved `generateEmotionScore`.  The variance of
the reaction times is divided by their mean (`... / avgReactionTime`),
which is `0/0 = NaN` in the source whenever there are two or more
samples that are all zero; `timeLimit / completionTime` likewise fails
for `completionTime = 0`.  `none` models that every output is then
non-finite. -/
noncomputable def generateEmotionScoreDB (completionTime timeLimit : ℝ) (retryCount : ℕ)
    (successRate : ℝ) (reactionTimes : List ℝ) : Option EmotionScore :=
  let avgReactionTime : ℝ :=
    if 0 < reactionTimes.length then reactionTimes.sum / reactionTimes.length else 500
  let reactionTimeVarianceOpt : Option ℝ :=
    if 1 < reactionTimes.length then
      jsDiv (Real.sqrt ((reactionTimes.map fun time => (time - avgReactionTime) ^ 2).sum /
        reactionTimes.length)) avgReactionTime
    else some 0.5
  match reactionTimeVarianceOpt, jsDiv timeLimit completionTime with
  | some reactionTimeVariance, some timeEfficiencyRaw =>
    some (emotionCoreDB retryCount successRate avgReactionTime reactionTimeVariance
      timeEfficiencyRaw)
  | _, _ => none

/-! ## Session Controller (GameContainer.tsx)

`handleGameOver(score, success)` is the single terminal callback every
variant invokes.  Timestamps are milliseconds (`Date.now()`), modelled
as naturals; the state fields mirror the React state hooks. -/

/-- The result object handleGameOver builds for the UI on success
(identity fields like ids are omitted; the numeric payload is kept). -/
structure GameResultRec : Type where
  score : ℤ
  completionTime : ℝ
  retryCount : ℕ
  successRate : ℝ
  reactionTimes : List ℝ
  emotionScore : EmotionScore

/-- The GameContainer state touched by the session lifecycle. -/
structure GCState : Type where
  level : Option GameLevel
  gameStarted : Bool
  gameCompleted : Bool
  retryCount : ℕ
  startTime : Option ℕ
  reactionTimes : List ℝ
  gameResult : Option GameResultRec

/-- The `successRate = score / 100` normalization of handleGameOver. -/
noncomputable def gcSuccessRate (score : ℤ) : ℝ := (score : ℝ) / 100

/-- The `handleGameOver` callback of GameContainer.tsx.  It returns early only when
no level or no start time is set; on success it computes the completion
time, the success rate and the emotion score and stores a result; on
failure it increments `retryCount` and leaves the Active state
(`setGameStarted(false)`).  There is no guard against being invoked
again for the same attempt. -/
noncomputable def handleGameOver (s : GCState) (score : ℤ) (success : Bool)
    (now : ℕ) : GCState :=
  match s.level, s.startTime with
  | some level, some startTime =>
    let completionTime : ℝ := ((now : ℝ) - (startTime : ℝ)) / 1000
    if success then
      let successRate := gcSuccessRate score
      let emotionScore := generateEmotionScoreGC completionTime (level.timeLimit : ℝ)
        s.retryCount successRate s.reactionTimes
      { s with gameCompleted := true,
               gameResult := some ⟨score, completionTime, s.retryCount, successRate,
                 s.reactionTimes, emotionScore⟩ }
    else
      { s with retryCount := s.retryCount + 1, gameStarted := false }
  | _, _ => s

/-! ## Maze-Navigation terminal score (MazeRunner, MirrorMoves.tsx)

On reaching the exit: `Math.floor(100 * (timeLeft / level.timeLimit)) + 20`. -/

/-- The Maze-Navigation success score: time bonus plus the fixed
completion bonus of 20. -/
def mazeExitScore (timeLeft timeLimit : ℕ) : ℤ :=
  ⌊(100 : ℚ) * ((timeLeft : ℚ) / (timeLimit : ℚ))⌋ + 20

/-! ## Pattern-Recall game (MirrorMoves.tsx) -/

/-- One step of the pattern (`PatternStep` in MirrorMoves.tsx). -/
structure PatternStep : Type where
  direction : Dir4
  completed : Bool
deriving DecidableEq, Repr

/-- The MirrorMoves state touched by input handling.  The countdown
timer lives in a separate interval and is not part of key handling. -/
structure MMState : Type where
  pattern : List PatternStep
  currentStep : ℕ
  showingPattern : Bool
  score : ℕ
  gameActive : Bool
  gameOver : Bool
  gameWon : Bool
  round : ℕ
  lives : ℕ
deriving DecidableEq, Repr

/-- The asynchronous effects `handleKeyDown` can schedule besides its
state update: nothing, `setTimeout(() => generatePattern(), 1000)` for
the next round, `setTimeout(() => showPattern(pattern), 1000)` re-showing
the given (unchanged) pattern, or the terminal `onGameOver(score, success)`. -/
inductive MMEffect : Type
  | noEffect
  | scheduleNewPattern
  | reshowPattern (pattern : List PatternStep)
  | gameOverEvent (score : ℕ) (success : Bool)
deriving DecidableEq, Repr

/-- The per-round pattern length of `generatePattern`:
`easy: min(2 + floor(round/4), 4)`, `medium: min(3 + floor(round/3), 6)`,
`hard: min(3 + floor(round/2), 8)` (ℕ division floors). -/
def patternLength (difficulty : Difficulty) (round : ℕ) : ℕ :=
  match difficulty with
  | .easy => min (2 + round / 4) 4
  | .medium => min (3 + round / 3) 6
  | .hard => min (3 + round / 2) 8

/-- The pattern built by `generatePattern`: `patternLength` random draws
from `['up', 'down', 'left', 'right']`, each initially uncompleted. -/
def generatePatternList (difficulty : Difficulty) (round : ℕ) (rng : ℕ → ℕ) :
    List PatternStep :=
  let directions : List Dir4 := [.up, .down, .left, .right]
  (List.range (patternLength difficulty round)).map fun i =>
    { direction := directions.get ⟨rng i % 4, Nat.mod_lt _ (by decide)⟩, completed := false }

/-- The `handleKeyDown` handler of MirrorMoves.tsx (the reaction-time recording is
orthogonal to the game rules and omitted here; it is modelled for the
snake variant).  In the source a wrong input at `lives = 0` would
compute `newLives = -1`; that state is unreachable because `lives = 0`
comes with `gameActive = false`, and truncated ℕ subtraction selects the
same branch. -/
def mmHandleKey (difficulty : Difficulty) (s : MMState) (userDirection : Dir4) :
    MMState × MMEffect :=
  if !s.gameActive || s.showingPattern then (s, .noEffect)
  else if h : s.currentStep < s.pattern.length then
    let expectedDirection := (s.pattern.get ⟨s.currentStep, h⟩).direction
    if userDirection = expectedDirection then
      let updatedPattern := s.pattern.set s.currentStep
        { s.pattern.get ⟨s.currentStep, h⟩ with completed := true }
      let nextStep := s.currentStep + 1
      if nextStep ≥ s.pattern.length then
        let difficultyMultiplier : ℕ :=
          match difficulty with
          | .easy => 12
          | .medium => 10
          | .hard => 8
        let roundScore := difficultyMultiplier * s.pattern.length
        let newScore := s.score + roundScore
        let winScore : ℕ :=
          match difficulty with
          | .easy => 80
          | .medium => 100
          | .hard => 120
        if newScore ≥ winScore ∨ s.round ≥ 10 then
          ({ s with pattern := updatedPattern, currentStep := nextStep, score := newScore,
                    gameActive := false, gameOver := true, gameWon := true },
            .gameOverEvent newScore true)
        else
          ({ s with pattern := updatedPattern, currentStep := nextStep, score := newScore,
                    round := s.round + 1 },
            .scheduleNewPattern)
      else
        ({ s with pattern := updatedPattern, currentStep := nextStep }, .noEffect)
    else
      let newLives := s.lives - 1
      if 0 < newLives then
        ({ s with lives := newLives, currentStep := 0 }, .reshowPattern s.pattern)
      else
        ({ s with lives := newLives, gameActive := false, gameOver := true, gameWon := false },
          .gameOverEvent s.score false)
  else (s, .noEffect)

/-! ## Progression Engine: daily challenges (mockDatabase.ts)

The in-memory `dailyChallenges` array is modelled as a list; `Math.random()`
draws are injected as `r1`, `r2`; `uuidv4()` as `freshId`. -/

/-- A `DailyChallenge` record; `date` is the calendar day of `c.date`. -/
structure Challenge : Type where
  id : ℕ
  childId : ℕ
  gameType : GameType
  levelId : ℕ
  date : ℤ
  completed : Bool
deriving DecidableEq, Repr

/-- Every variant has a non-empty level list (all have three levels). -/
def gameLevels_length_pos (gt : GameType) : 0 < (gameLevels gt).length := by
  cases gt <;> decide

/-- The `createDailyChallenge` helper: pick a uniformly random game type, then a
uniformly random level of that type, and append a fresh, uncompleted
challenge dated today. -/
def createDailyChallenge (childId : ℕ) (today : ℤ) (freshId r1 r2 : ℕ) : Challenge :=
  let gameTypes : List GameType := [.mageRun, .snakeGame, .mirrorMoves, .mazeRunner]
  let randomGameType := gameTypes.get ⟨r1 % 4, Nat.mod_lt _ (by decide)⟩
  let levels := gameLevels randomGameType
  let randomLevel := levels.get ⟨r2 % levels.length,
    Nat.mod_lt _ (gameLevels_length_pos randomGameType)⟩
  { id := freshId, childId := childId, gameType := randomGameType,
    levelId := randomLevel.id, date := today, completed := false }

/-- The lookup predicate of `getDailyChallenge`:
`c.childId === childId && new Date(c.date).toDateString() === today`. -/
def challengeMatches (childId : ℕ) (today : ℤ) (c : Challenge) : Bool :=
  decide (c.childId = childId) && decide (c.date = today)

/-- The `getDailyChallenge` query: return today's challenge for the child if one
exists, otherwise create one (appending it to the store) and return it. -/
def getDailyChallenge (cs : List Challenge) (childId : ℕ) (today : ℤ)
    (freshId r1 r2 : ℕ) : Challenge × List Challenge :=
  match cs.find? (challengeMatches childId today) with
  | some challenge => (challenge, cs)
  | none =>
    let challenge := createDailyChallenge childId today freshId r1 r2
    (challenge, cs ++ [challenge])

/-- The completion predicate of `saveGameResult`: same child, same game
type, same level, today, and not yet completed. -/
def challengeSaveMatches (childId : ℕ) (gt : GameType) (levelId : ℕ) (today : ℤ)
    (c : Challenge) : Bool :=
  decide (c.childId = childId) && decide (c.gameType = gt) &&
    decide (c.levelId = levelId) && decide (c.date = today) && !c.completed

/-- In-place mutation of the first element satisfying `p` (the source's
`dailyChallenges.find(...)` returns a reference whose `completed` field
is then set to `true`). -/
def setCompletedFirst (p : Challenge → Bool) : List Challenge → List Challenge
  | [] => []
  | c :: cs => if p c then { c with completed := true } :: cs else c :: setCompletedFirst p cs

/-- The daily-challenge portion of `saveGameResult`: mark today's
matching, not-yet-completed challenge (if any) as completed. -/
def markDailyChallenge (cs : List Challenge) (childId : ℕ) (gt : GameType)
    (levelId : ℕ) (today : ℤ) : List Challenge :=
  setCompletedFirst (challengeSaveMatches childId gt levelId today) cs

/-! ## Progression Engine: achievements (mockDatabase.ts)

Achievement ids `'1'`–`'6'` are modelled as naturals; a record of the
`childAchievements` array for a fixed `(childId, achievementId)` key is
an `Option ChildAchievement` (absent or present).  `unlockedAt` is an
`Option` of a timestamp; the source's falsy empty string is `none`. -/

/-- A `ChildAchievement` record (the key fields are fixed). -/
structure ChildAchievement : Type where
  progress : ℕ
  maxProgress : ℕ
  unlockedAt : Option ℕ
deriving DecidableEq, Repr

/-- The `achievements` table as (id, maxProgress) pairs: First Steps 1,
Quick Learner 5, Focus Master 1, Streak Champion 5, Joy Seeker 1,
Game Master 4 (titles, descriptions and icons carry no logic). -/
def achievements : List (ℕ × ℕ) :=
  [(1, 1), (2, 5), (3, 1), (4, 5), (5, 1), (6, 4)]

/-- Lookup of `achievements.find(a => a.id === achievementId)`, projected to
`maxProgress`. -/
def achievementLookup (achievementId : ℕ) : Option ℕ :=
  (achievements.find? fun a => decide (a.1 = achievementId)).map fun a => a.2

/-- The `createChildAchievement` helper: overwrite (or create) the record with the
given progress; stamp `unlockedAt` when the progress reaches the maximum
and it is not already stamped. -/
def createChildAchievement (now progress maxProgress : ℕ)
    (existing : Option ChildAchievement) : ChildAchievement :=
  match existing with
  | some e =>
    { e with progress := progress,
             unlockedAt := if maxProgress ≤ progress ∧ e.unlockedAt = none then some now
                           else e.unlockedAt }
  | none =>
    { progress := progress, maxProgress := maxProgress,
      unlockedAt := if maxProgress ≤ progress then some now else none }

/-- The `updateAchievementProgress` helper: no-op for an unknown achievement id;
otherwise take `max(existing.progress, progress)` (JavaScript
`achievement.maxProgress || 1` guards a falsy maximum) and stamp
`unlockedAt` the first time the maximum is reached. -/
def updateAchievementProgress (achievementId now progress : ℕ)
    (existing : Option ChildAchievement) : Option ChildAchievement :=
  match achievementLookup achievementId with
  | none => existing
  | some m =>
    let maxProgress := if m = 0 then 1 else m
    match existing with
    | some e =>
      let newProgress := max e.progress progress
      some { e with progress := newProgress,
                    unlockedAt := if maxProgress ≤ newProgress ∧ e.unlockedAt = none
                                  then some now else e.unlockedAt }
    | none => some (createChildAchievement now progress maxProgress none)

/-- A sequence of `updateAchievementProgress` calls for one achievement,
`ops` being the `(now, progress)` arguments in order — the per-session
recomputation of `saveGameResult` across any sequence of sessions. -/
def applyAchievementOps (achievementId : ℕ) (ops : List (ℕ × ℕ))
    (st : Option ChildAchievement) : Option ChildAchievement :=
  ops.foldl (fun st op => updateAchievementProgress achievementId op.1 op.2 st) st

/-! ## Maze generator (MazeRunner, MirrorMoves.tsx)

`generateMaze(width, height)` builds a `MazeCell[][]` with all walls up,
then runs an explicit-stack randomized depth-first backtracker: while
the stack is non-empty, collect the unvisited grid neighbors of the top
cell; if any exist, pick one at random, knock down the wall between the
two cells (on both sides), mark it visited and push it; otherwise pop.
Finally the entrance's outer top wall and the exit's outer bottom wall
are opened.

The `MazeCell[][]` is modelled as a total function from `(x, y)` (the
source indexes `maze[y][x]` and additionally stores the redundant
coordinates in each cell); `Math.random()` draws are an injected stream
`rng`, consumed one value per draw and reduced modulo the number of
candidates.  The `while` loop is run on a fuel of `2·width·height + 1`
steps, which is proved sufficient: every iteration either marks a new
cell visited (at most `width·height` times) or pops (at most once per
push plus the initial cell). -/

/-- The four wall flags of a maze cell. -/
structure Walls : Type where
  top : Bool
  right : Bool
  bottom : Bool
  left : Bool
deriving DecidableEq, Repr

/-- A maze cell: wall flags and the generator's visited flag. -/
structure MazeCell : Type where
  walls : Walls
  visited : Bool
deriving DecidableEq, Repr

/-- The neighbor directions used by the generator. -/
inductive MazeDir : Type
  | top
  | right
  | bottom
  | left
deriving DecidableEq, Repr

/-- A maze as a total function on coordinates (cells outside the grid
are never touched and keep all walls up). -/
abbrev Maze : Type := ℕ × ℕ → MazeCell

/-- Remove one wall flag. -/
def removeWallDir (w : Walls) : MazeDir → Walls
  | .top => { w with top := false }
  | .right => { w with right := false }
  | .bottom => { w with bottom := false }
  | .left => { w with left := false }

/-- The opposite wall, for the neighbor's side of the knocked-down wall. -/
def oppMazeDir : MazeDir → MazeDir
  | .top => .bottom
  | .right => .left
  | .bottom => .top
  | .left => .right

/-- Knock down the wall between `cur` and the chosen neighbor `next`
(on both sides) and mark `next` visited — the body of the
`if (neighbors.length > 0)` branch. -/
def carve (m : Maze) (cur next : ℕ × ℕ) (d : MazeDir) : Maze := fun p =>
  if p = next then
    { walls := removeWallDir (m p).walls (oppMazeDir d), visited := true }
  else if p = cur then
    { m p with walls := removeWallDir (m p).walls d }
  else m p

/-- The unvisited grid neighbors of `c`, in the source's order
(top, right, bottom, left), with the direction of the shared wall. -/
def unvisitedNeighbors (width height : ℕ) (m : Maze) (c : ℕ × ℕ) :
    List ((ℕ × ℕ) × MazeDir) :=
  (if 0 < c.2 ∧ (m (c.1, c.2 - 1)).visited = false
    then [((c.1, c.2 - 1), MazeDir.top)] else [])
  ++ (if c.1 < width - 1 ∧ (m (c.1 + 1, c.2)).visited = false
    then [((c.1 + 1, c.2), MazeDir.right)] else [])
  ++ (if c.2 < height - 1 ∧ (m (c.1, c.2 + 1)).visited = false
    then [((c.1, c.2 + 1), MazeDir.bottom)] else [])
  ++ (if 0 < c.1 ∧ (m (c.1 - 1, c.2)).visited = false
    then [((c.1 - 1, c.2), MazeDir.left)] else [])

/-- The generator's mutable state: the maze under construction, the
explicit stack (head = `stack[stack.length - 1]`), and the number of
random draws made so far. -/
structure GenState : Type where
  maze : Maze
  stack : List (ℕ × ℕ)
  t : ℕ

/-- The `while (stack.length > 0)` loop, on fuel. -/
def genLoop (width height : ℕ) (rng : ℕ → ℕ) : ℕ → GenState → Maze
  | 0, s => s.maze
  | fuel + 1, s =>
    match s.stack with
    | [] => s.maze
    | cur :: rest =>
      let ns := unvisitedNeighbors width height s.maze cur
      if hns : 0 < ns.length then
        let choice := ns.get ⟨rng s.t % ns.length, Nat.mod_lt _ hns⟩
        genLoop width height rng fuel
          { maze := carve s.maze cur choice.1 choice.2,
            stack := choice.1 :: s.stack, t := s.t + 1 }
      else
        genLoop width height rng fuel { maze := s.maze, stack := rest, t := s.t }

/-- The initial maze: every wall up, nothing visited. -/
def initMaze : Maze := fun _ => ⟨⟨true, true, true, true⟩, false⟩

/-- The post-loop step: `newMaze[0][0].walls.top = false` (entrance)
and `newMaze[height - 1][width - 1].walls.bottom = false` (exit). -/
def openOuterWalls (width height : ℕ) (m : Maze) : Maze :=
  let m1 : Maze := fun p =>
    if p = (0, 0) then { m p with walls := { (m p).walls with top := false } } else m p
  fun p =>
    if p = (width - 1, height - 1) then
      { m1 p with walls := { (m1 p).walls with bottom := false } }
    else m1 p

/-- The `generateMaze` function: run the backtracker from `(0, 0)` (marked visited
and pushed), then open the entrance's top wall and the exit's bottom
wall. -/
def generateMaze (width height : ℕ) (rng : ℕ → ℕ) : Maze :=
  let m0 : Maze := fun p =>
    if p = (0, 0) then ⟨⟨true, true, true, true⟩, true⟩ else initMaze p
  openOuterWalls width height
    (genLoop width height rng (2 * width * height + 1) ⟨m0, [(0, 0)], 0⟩)

/-- Membership in the `width × height` grid. -/
def inGrid (width height : ℕ) (p : ℕ × ℕ) : Prop := p.1 < width ∧ p.2 < height

/-- Two cells share an open internal edge: adjacent, and the wall
between them is down.  The flag of each internal edge is read on its
canonical side (the `right` wall of the left cell, the `bottom` wall of
the upper cell); `carve` always knocks both sides down together. -/
def AdjOpen (m : Maze) (p q : ℕ × ℕ) : Prop :=
  (q = (p.1 + 1, p.2) ∧ (m p).walls.right = false)
  ∨ (p = (q.1 + 1, q.2) ∧ (m q).walls.right = false)
  ∨ (q = (p.1, p.2 + 1) ∧ (m p).walls.bottom = false)
  ∨ (p = (q.1, q.2 + 1) ∧ (m q).walls.bottom = false)

/-- Reachability through open internal edges. -/
def Reach (m : Maze) (p q : ℕ × ℕ) : Prop := Relation.ReflTransGen (AdjOpen m) p q

/-- The number of open internal edges: horizontal edges are indexed by
their left cell, vertical edges by their upper cell. -/
def openEdgeCount (width height : ℕ) (m : Maze) : ℕ :=
  ((Finset.range (width - 1) ×ˢ Finset.range height).filter
    fun p => (m p).walls.right = false).card
  + ((Finset.range width ×ˢ Finset.range (height - 1)).filter
    fun p => (m p).walls.bottom = false).card

/-- The number of visited grid cells. -/
def visitedCount (width height : ℕ) (m : Maze) : ℕ :=
  ((Finset.range width ×ˢ Finset.range height).filter
    fun p => (m p).visited = true).card

/-- Grid adjacency (regardless of walls). -/
def gridAdj (width height : ℕ) (p q : ℕ × ℕ) : Prop :=
  inGrid width height q ∧
    (q = (p.1 + 1, p.2) ∨ p = (q.1 + 1, q.2) ∨ q = (p.1, p.2 + 1) ∨ p = (q.1, q.2 + 1))

/-- The loop invariant of the backtracker. -/
structure GenInv (width height : ℕ) (s : GenState) : Prop where
  stack_visited : ∀ p ∈ s.stack, inGrid width height p ∧ (s.maze p).visited = true
  origin_visited : (s.maze (0, 0)).visited = true
  reach : ∀ p, inGrid width height p → (s.maze p).visited = true → Reach s.maze (0, 0) p
  right_vis : ∀ p : ℕ × ℕ, (s.maze p).walls.right = false →
    (s.maze p).visited = true ∧ (s.maze (p.1 + 1, p.2)).visited = true
  bottom_vis : ∀ p : ℕ × ℕ, (s.maze p).walls.bottom = false →
    (s.maze p).visited = true ∧ (s.maze (p.1, p.2 + 1)).visited = true
  count : openEdgeCount width height s.maze + 1 = visitedCount width height s.maze
  closed : ∀ p, inGrid width height p → (s.maze p).visited = true → p ∉ s.stack →
    ∀ q, gridAdj width height p q → (s.maze q).visited = true

/-! ## Theorems -/

/-- C6: when a game result is saved, a `lastPlayDate` of yesterday
increments the streak, one of two or more days ago resets it to 1,
today's leaves it unchanged, a missing one sets it to 1, and
`lastPlayDate` always advances to today. -/
theorem streak_update_correct (child : ChildStreak) (today : ℤ) :
    (child.lastPlayDate = some (today - 1) →
      (saveGameResultStreak child today).streakDays = child.streakDays + 1)
    ∧ (∀ d : ℤ, child.lastPlayDate = some d → d ≤ today - 2 →
      (saveGameResultStreak child today).streakDays = 1)
    ∧ (child.lastPlayDate = some today →
      (saveGameResultStreak child today).streakDays = child.streakDays)
    ∧ (child.lastPlayDate = none →
      (saveGameResultStreak child today).streakDays = 1)
    ∧ (saveGameResultStreak child today).lastPlayDate = some today := by
  refine ⟨?_, ?_, ?_, ?_, rfl⟩
  · intro h
    simp only [saveGameResultStreak, streakUpdate, h]
    have h1 : today - 1 ≠ today := by omega
    simp [h1]
  · intro d hd hle
    simp only [saveGameResultStreak, streakUpdate, hd]
    have h1 : d ≠ today := by omega
    have h2 : d ≠ today - 1 := by omega
    simp [h1, h2]
  · intro h
    simp [saveGameResultStreak, streakUpdate, h]
  · intro h
    simp [saveGameResultStreak, streakUpdate, h]

/-- Witness for `streak_update_correct` at a concrete input: a child
with a 4-day streak who last played on day 99 plays on day 100. -/
theorem streak_update_correct_witness :
    (⟨4, some 99⟩ : ChildStreak).lastPlayDate = some ((100 : ℤ) - 1)
    ∧ (saveGameResultStreak ⟨4, some 99⟩ 100).streakDays = 4 + 1 := by
  refine ⟨by decide, (streak_update_correct ⟨4, some 99⟩ 100).1 (by decide)⟩

/-- C9: in the Grid-Growth (snake) game, a direction input equal to the
exact reverse of the last committed movement direction never changes
the committed `direction` (so the snake's next tick still moves the
previously committed way), and each `moveSnake` tick commits
`lastDirection := direction`. -/
theorem snake_no_reverse :
    (∀ (s : SnakeState) (key : Dir4) (now : ℕ),
      key = dirOpposite s.lastDirection →
      (snakeHandleKey s key now).1.direction = s.direction)
    ∧ ∀ (s : SnakeState) (newFood : ℤ × ℤ),
      (moveSnake s newFood).1.lastDirection = s.direction := by
  constructor
  · intro s key now hkey
    subst hkey
    cases hld : s.lastDirection <;>
      cases hga : s.gameActive <;>
        simp [snakeHandleKey, dirOpposite, hld, hga]
  · intro s newFood
    match hs : s.snake with
    | [] => simp [moveSnake, hs]
    | head :: rest =>
      simp only [moveSnake, hs]
      repeat' split
      all_goals simp

/-- Witness for `snake_no_reverse`: with last committed direction
`right`, a `left` input leaves the committed direction unchanged. -/
theorem snake_no_reverse_witness :
    (Dir4.left = dirOpposite (⟨[(10, 10), (9, 10), (8, 10)], (15, 10), [], .right, .right, 0,
        true, none⟩ : SnakeState).lastDirection)
    ∧ (snakeHandleKey ⟨[(10, 10), (9, 10), (8, 10)], (15, 10), [], .right, .right, 0,
        true, none⟩ .left 5).1.direction = .right := by
  exact ⟨by decide, snake_no_reverse.1 _ .left 5 (by decide)⟩

/-! ### Scoring engine lemmas -/

theorem clamp01_nonneg (x : ℝ) : 0 ≤ min (max x 0) 1 :=
  le_min (le_max_right x 0) zero_le_one

theorem clamp01_le_one (x : ℝ) : min (max x 0) 1 ≤ 1 :=
  min_le_right _ _

theorem standardDeviation_nonneg (values : List ℝ) : 0 ≤ standardDeviation values := by
  unfold standardDeviation
  split
  · exact le_refl 0
  · exact Real.sqrt_nonneg _

/-- Every output of the mockDatabase emotion arithmetic is clamped, so
whenever the two fallible divisions are finite, all five outputs are in
range. -/
theorem emotionCoreDB_inRange (rc : ℕ) (sr a v te : ℝ) :
    EmotionInRange (emotionCoreDB rc sr a v te) := by
  refine ⟨clamp01_nonneg _, clamp01_le_one _, clamp01_nonneg _, clamp01_le_one _,
    clamp01_nonneg _, clamp01_le_one _, clamp01_nonneg _, clamp01_le_one _,
    le_min (le_max_right _ _) (by norm_num), min_le_right _ _⟩

/-- The GameContainer emotion arithmetic stays in range for in-range
intermediates (it clamps only some of its outputs; the rest are bounded
combinations). -/
theorem emotionCoreGC_inRange (rc : ℕ) (sr a te rtc : ℝ)
    (hsr0 : 0 ≤ sr) (hsr1 : sr ≤ 1) (ha : 0 ≤ a)
    (hte0 : 0 ≤ te) (hte1 : te ≤ 1) (hrtc0 : 0 ≤ rtc) (hrtc1 : rtc ≤ 1) :
    EmotionInRange (emotionCoreGC rc sr a te rtc) := by
  have hrf0 : (0:ℝ) ≤ min 1 ((rc : ℝ) / 5) := le_min zero_le_one (by positivity)
  have hrf1 : min 1 ((rc : ℝ) / 5) ≤ 1 := min_le_left _ _
  have haf0 : (0:ℝ) ≤ min 1 (a / 2) := le_min zero_le_one (by positivity)
  have haf1 : min 1 (a / 2) ≤ 1 := min_le_left _ _
  have hjoy0 : (0:ℝ) ≤ min 1 (sr * 0.7 + te * 0.3) :=
    le_min zero_le_one (by nlinarith)
  have hmax0 : (0:ℝ) ≤ max 0 (1 - a / 2) := le_max_left _ _
  have hmax1 : max 0 (1 - a / 2) ≤ 1 := max_le (by norm_num) (by nlinarith)
  unfold emotionCoreGC EmotionInRange
  dsimp only
  refine ⟨hjoy0, min_le_left _ _, by nlinarith, by nlinarith, by nlinarith, by nlinarith,
    by nlinarith, by nlinarith, le_max_left _ _, max_le (by norm_num) (min_le_left _ _)⟩

/-- Under valid inputs whose samples are not "two or more, all zero",
the fallible divisions of the mockDatabase scoring engine succeed. -/
theorem generateEmotionScoreDB_eq (ct tl : ℝ) (rc : ℕ) (sr : ℝ) (rts : List ℝ)
    (hct : ct ≠ 0) (hz : rts.length ≤ 1 ∨ 0 < rts.sum) :
    ∃ a v, generateEmotionScoreDB ct tl rc sr rts =
      some (emotionCoreDB rc sr a v (tl / ct)) := by
  have hTE : jsDiv tl ct = some (tl / ct) := by simp [jsDiv, hct]
  by_cases h2 : 1 < rts.length
  · have hsum : 0 < rts.sum := by
      rcases hz with h | h
      · omega
      · exact h
    have hlen : 0 < rts.length := by omega
    have havg : (if 0 < rts.length then rts.sum / (rts.length : ℝ) else 500) =
        rts.sum / rts.length := if_pos hlen
    have havgpos : (0:ℝ) < rts.sum / rts.length := by
      apply div_pos hsum
      exact_mod_cast hlen
    refine ⟨rts.sum / rts.length,
      Real.sqrt ((rts.map fun time => (time - rts.sum / rts.length) ^ 2).sum / rts.length) /
        (rts.sum / rts.length), ?_⟩
    simp only [generateEmotionScoreDB, havg, if_pos h2, jsDiv, if_neg (ne_of_gt havgpos),
      if_neg hct]
  · refine ⟨if 0 < rts.length then rts.sum / (rts.length : ℝ) else 500, 0.5, ?_⟩
    simp only [generateEmotionScoreDB, if_neg h2, hTE]

/-- C1 counterexample: at the valid input `completionTime = 10`,
`timeLimit = 60`, `retryCount = 0`, `successRate = 1` and the
non-negative sample sequence `[0, 0]`, the mockDatabase scoring engine
divides the sample standard deviation by the zero sample mean
(`0/0 = NaN` in JavaScript), so all five outputs are NaN — contradicting
the claim that no output is NaN for any valid input. -/
theorem generateEmotionScoreDB_nan_input :
    generateEmotionScoreDB 10 60 0 1 [0, 0] = none := by
  have h : ((0:ℝ) + (0 + 0)) / 2 = 0 := by norm_num
  simp [generateEmotionScoreDB, jsDiv, h]

/-- C1 (amended): for valid scoring inputs (`completionTime > 0`,
`timeLimit > 0`, `successRate ∈ [0,1]`, non-negative reaction samples)
whose samples are fewer than two or have positive mean, both versions of
`generateEmotionScore` produce finite outputs with `joy`, `frustration`,
`engagement`, `focus` in `[0,1]` and `overall` in `[-1,1]`. -/
theorem emotionScore_ranges (ct tl : ℝ) (rc : ℕ) (sr : ℝ) (rts : List ℝ)
    (hct : 0 < ct) (htl : 0 < tl) (hsr0 : 0 ≤ sr) (hsr1 : sr ≤ 1)
    (hnn : ∀ t ∈ rts, 0 ≤ t) (hz : rts.length ≤ 1 ∨ 0 < rts.sum) :
    (∃ es, generateEmotionScoreDB ct tl rc sr rts = some es ∧ EmotionInRange es)
    ∧ EmotionInRange (generateEmotionScoreGC ct tl rc sr rts) := by
  constructor
  · obtain ⟨a, v, heq⟩ := generateEmotionScoreDB_eq ct tl rc sr rts (ne_of_gt hct) hz
    exact ⟨_, heq, emotionCoreDB_inRange _ _ _ _ _⟩
  · have hsum : 0 ≤ rts.sum := List.sum_nonneg hnn
    have ha : (0:ℝ) ≤
        (if 0 < rts.length then rts.sum / (rts.length : ℝ) / 1000 else 1) := by
      split
      · exact div_nonneg (div_nonneg hsum (Nat.cast_nonneg _)) (by norm_num)
      · norm_num
    have hte0 : (0:ℝ) ≤ min 1 (tl / max ct 1) := by
      have : (0:ℝ) < max ct 1 := lt_max_of_lt_right one_pos
      exact le_min zero_le_one (by positivity)
    have hte1 : min 1 (tl / max ct 1) ≤ 1 := min_le_left _ _
    have hrtc : (0:ℝ) ≤
          (if 1 < rts.length then 1 - min 1 (standardDeviation rts / 1000) else 0.5)
        ∧ (if 1 < rts.length then 1 - min 1 (standardDeviation rts / 1000) else 0.5) ≤ 1 := by
      split
      · have h0 : (0:ℝ) ≤ min 1 (standardDeviation rts / 1000) :=
          le_min zero_le_one (div_nonneg (standardDeviation_nonneg rts) (by norm_num))
        have h1 : min 1 (standardDeviation rts / 1000) ≤ 1 := min_le_left _ _
        constructor <;> linarith
      · norm_num
    exact emotionCoreGC_inRange rc sr _ _ _ hsr0 hsr1 ha hte0 hte1 hrtc.1 hrtc.2

/-- Witness for `emotionScore_ranges` at `completionTime = 30`,
`timeLimit = 60`, `retryCount = 2`, `successRate = 1`, no samples. -/
theorem emotionScore_ranges_witness :
    (0:ℝ) < 30 ∧ (0:ℝ) < 60 ∧ (0:ℝ) ≤ 1 ∧ (1:ℝ) ≤ 1 ∧
    ((∃ es, generateEmotionScoreDB 30 60 2 1 [] = some es ∧ EmotionInRange es)
      ∧ EmotionInRange (generateEmotionScoreGC 30 60 2 1 [])) := by
  refine ⟨by norm_num, by norm_num, by norm_num, le_refl 1, ?_⟩
  exact emotionScore_ranges 30 60 2 1 [] (by norm_num) (by norm_num) (by norm_num)
    (le_refl 1) (by simp) (Or.inl (by simp))

/-- The focus output of the mockDatabase emotion arithmetic for a
first-try success: with `retryCount = 0` the retry term contributes a
full unweighted `1`, the other two terms are non-negative, and the final
clamp saturates at `1`. -/
theorem emotionCoreDB_focus_eq_one (sr a v te : ℝ) :
    (emotionCoreDB 0 sr a v te).focus = 1 := by
  unfold emotionCoreDB
  dsimp only
  have hrc : (0:ℝ) ≤ min (max (1 - v) 0) 1 := le_min (le_max_right _ _) zero_le_one
  have h05 : (0.5:ℝ) ≤ min (max (min te 1.5) 0.5) 1.5 :=
    le_min (le_trans (by norm_num) (le_max_right _ _)) (by norm_num)
  have hnte : (0:ℝ) ≤ min (max (min te 1.5) 0.5) 1.5 / 1.5 :=
    div_nonneg (le_trans (by norm_num) h05) (by norm_num)
  have h0 : min (((0:ℕ):ℝ) * 0.1) 0.2 = 0 := by norm_num
  rw [h0, sub_zero]
  have hF : (1:ℝ) ≤ min (max (1 - v) 0) 1 * 0.5 +
      min (max (min te 1.5) 0.5) 1.5 / 1.5 * 0.3 + 1 := by nlinarith
  rw [max_eq_left (le_trans zero_le_one hF)]
  exact min_eq_right hF

/-- C10: in the improved (mockDatabase) `generateEmotionScore`, every
first-try success (`retryCount = 0`) with well-defined intermediates
(fewer than two samples, or positive sample mean) gets a focus score of
exactly 1: the unweighted retry term makes the pre-clamp focus at least
1 and the clamp saturates it. -/
theorem focus_saturates_first_try (ct tl : ℝ) (sr : ℝ) (rts : List ℝ)
    (hct : 0 < ct) (hz : rts.length ≤ 1 ∨ 0 < rts.sum) :
    ∃ es, generateEmotionScoreDB ct tl 0 sr rts = some es ∧ es.focus = 1 := by
  obtain ⟨a, v, heq⟩ := generateEmotionScoreDB_eq ct tl 0 sr rts (ne_of_gt hct) hz
  exact ⟨_, heq, emotionCoreDB_focus_eq_one _ _ _ _⟩

/-- Witness for `focus_saturates_first_try` at `completionTime = 60`,
`timeLimit = 60`, `successRate = 1`, no samples. -/
theorem focus_saturates_first_try_witness :
    (0:ℝ) < 60 ∧
    ∃ es, generateEmotionScoreDB 60 60 0 1 [] = some es ∧ es.focus = 1 := by
  exact ⟨by norm_num,
    focus_saturates_first_try 60 60 1 [] (by norm_num) (Or.inl (by simp))⟩

/-! ### Session controller and maze score theorems -/

/-- C2: the code contradicts the at-most-once requirement on terminal
callbacks.  Starting from an Active attempt (level loaded, start time
set), a first `(50, false)` terminal moves the controller out of Active
(`gameStarted = false`) with `retryCount = 1`; a second terminal
invocation for the same attempt is not a no-op: it increments
`retryCount` again, to 2.  Nothing in `handleGameOver` latches the
terminal state (`startTime` is never cleared). -/
theorem handleGameOver_double_terminal_not_noop :
    ((handleGameOver ⟨some ⟨1, .easy, 7/10, 3, 80⟩, true, false, 0, some 1000, [], none⟩
        50 false 31000).gameStarted = false
      ∧ (handleGameOver ⟨some ⟨1, .easy, 7/10, 3, 80⟩, true, false, 0, some 1000, [], none⟩
        50 false 31000).retryCount = 1)
    ∧ (handleGameOver (handleGameOver ⟨some ⟨1, .easy, 7/10, 3, 80⟩, true, false, 0,
        some 1000, [], none⟩ 50 false 31000) 50 false 32000).retryCount = 2 :=
  ⟨⟨rfl, rfl⟩, rfl⟩

/-- C4 counterexample: reaching the maze exit with the full time limit
remaining (`timeLeft = timeLimit = 60`) scores
`floor(100 × 60/60) + 20 = 120 > 100`, and the session controller's
`successRate = score / 100 = 1.2 ∉ [0,1]`. -/
theorem mazeExitScore_exceeds_100 :
    mazeExitScore 60 60 = 120 ∧ ¬(mazeExitScore 60 60 ≤ 100)
    ∧ ¬(gcSuccessRate (mazeExitScore 60 60) ≤ 1) := by
  have h : mazeExitScore 60 60 = 120 := by norm_num [mazeExitScore]
  refine ⟨h, by rw [h]; norm_num, by rw [h]; norm_num [gcSuccessRate]⟩

/-- C4 (amended): a successful Maze-Navigation attempt with
`0 ≤ timeLeft ≤ timeLimit` produces
`score = floor(100 × timeLeft/timeLimit) + 20 ∈ [20, 120]` — so it can
exceed 100 by up to the fixed bonus — and the controller's
`successRate = score / 100` lies in `[0.2, 1.2]`, exceeding 1 exactly
when the score exceeds 100. -/
theorem mazeExitScore_bounds (timeLeft timeLimit : ℕ)
    (hle : timeLeft ≤ timeLimit) (hpos : 0 < timeLimit) :
    20 ≤ mazeExitScore timeLeft timeLimit ∧ mazeExitScore timeLeft timeLimit ≤ 120 ∧
    (1/5 : ℝ) ≤ gcSuccessRate (mazeExitScore timeLeft timeLimit) ∧
    gcSuccessRate (mazeExitScore timeLeft timeLimit) ≤ 6/5 := by
  have hr0 : (0:ℚ) ≤ (timeLeft : ℚ) / (timeLimit : ℚ) := by positivity
  have hr1 : (timeLeft : ℚ) / (timeLimit : ℚ) ≤ 1 := by
    rw [div_le_one (by exact_mod_cast hpos)]
    exact_mod_cast hle
  have hf0 : (0:ℤ) ≤ ⌊(100 : ℚ) * ((timeLeft : ℚ) / (timeLimit : ℚ))⌋ :=
    Int.floor_nonneg.mpr (by positivity)
  have hf1 : ⌊(100 : ℚ) * ((timeLeft : ℚ) / (timeLimit : ℚ))⌋ ≤ 100 := by
    have hb : (100 : ℚ) * ((timeLeft : ℚ) / (timeLimit : ℚ)) ≤ 100 := by nlinarith
    calc ⌊(100 : ℚ) * ((timeLeft : ℚ) / (timeLimit : ℚ))⌋
        ≤ ⌊(100:ℚ)⌋ := Int.floor_le_floor hb
      _ = 100 := by norm_num
  have hs0 : 20 ≤ mazeExitScore timeLeft timeLimit := by unfold mazeExitScore; omega
  have hs1 : mazeExitScore timeLeft timeLimit ≤ 120 := by unfold mazeExitScore; omega
  refine ⟨hs0, hs1, ?_, ?_⟩
  · unfold gcSuccessRate
    have h20 : (20:ℝ) ≤ (mazeExitScore timeLeft timeLimit : ℝ) := by exact_mod_cast hs0
    linarith
  · unfold gcSuccessRate
    have h120 : (mazeExitScore timeLeft timeLimit : ℝ) ≤ 120 := by exact_mod_cast hs1
    linarith

/-- Witness for `mazeExitScore_bounds` at the spec's end-to-end
scenario: `timeLimit = 60`, `timeLeft = 40` at the exit. -/
theorem mazeExitScore_bounds_witness :
    (40 ≤ 60 ∧ 0 < 60) ∧
    (20 ≤ mazeExitScore 40 60 ∧ mazeExitScore 40 60 ≤ 120 ∧
      (1/5 : ℝ) ≤ gcSuccessRate (mazeExitScore 40 60) ∧
      gcSuccessRate (mazeExitScore 40 60) ≤ 6/5) :=
  ⟨⟨by norm_num, by norm_num⟩, mazeExitScore_bounds 40 60 (by norm_num) (by norm_num)⟩

/-! ### Pattern-Recall theorems -/

/-- C3 counterexample: on easy difficulty, round 1, with full lives (3)
and pattern `[up, up]`, one wrong direction (`down`) leaves the player
with 2 lives — a life IS consumed, contradicting the claim that a wrong
direction on rounds ≤ 3 consumes no life (the game does re-show the
same pattern rather than ending). -/
theorem mirrorMoves_wrong_input_consumes_life :
    ({ pattern := [⟨.up, false⟩, ⟨.up, false⟩], currentStep := 0, showingPattern := false,
        score := 0, gameActive := true, gameOver := false, gameWon := false, round := 1,
        lives := 3 } : MMState).lives = 3
    ∧ (mmHandleKey .easy
        { pattern := [⟨.up, false⟩, ⟨.up, false⟩], currentStep := 0, showingPattern := false,
          score := 0, gameActive := true, gameOver := false, gameWon := false, round := 1,
          lives := 3 } .down).1.lives = 2 := by
  decide

/-- C3 (amended): Pattern-Recall on easy difficulty, round 1: the
generated sequence has length exactly 2; entering the two generated
directions in order adds `12 × 2 = 24` to the score and starts a new
round (24 < 80 and round 1 < 10); and entering one wrong direction on
any round with full lives consumes one life (3 → 2) and re-shows the
same pattern instead of ending the game. -/
theorem mirrorMoves_easy_round1 :
    (∀ rng : ℕ → ℕ, (generatePatternList .easy 1 rng).length = 2)
    ∧ (∀ d1 d2 : Dir4, ∀ lives : ℕ,
        (mmHandleKey .easy
          (mmHandleKey .easy
            { pattern := [⟨d1, false⟩, ⟨d2, false⟩], currentStep := 0,
              showingPattern := false, score := 0, gameActive := true, gameOver := false,
              gameWon := false, round := 1, lives := lives } d1).1 d2).1.score = 24
        ∧ (mmHandleKey .easy
          (mmHandleKey .easy
            { pattern := [⟨d1, false⟩, ⟨d2, false⟩], currentStep := 0,
              showingPattern := false, score := 0, gameActive := true, gameOver := false,
              gameWon := false, round := 1, lives := lives } d1).1 d2).1.round = 2
        ∧ (mmHandleKey .easy
          (mmHandleKey .easy
            { pattern := [⟨d1, false⟩, ⟨d2, false⟩], currentStep := 0,
              showingPattern := false, score := 0, gameActive := true, gameOver := false,
              gameWon := false, round := 1, lives := lives } d1).1 d2).2 =
            .scheduleNewPattern
        ∧ (mmHandleKey .easy
          (mmHandleKey .easy
            { pattern := [⟨d1, false⟩, ⟨d2, false⟩], currentStep := 0,
              showingPattern := false, score := 0, gameActive := true, gameOver := false,
              gameWon := false, round := 1, lives := lives } d1).1 d2).1.gameOver = false)
    ∧ (∀ (p : List PatternStep) (r : ℕ) (d : Dir4) (hp : 0 < p.length),
        d ≠ (p.get ⟨0, hp⟩).direction →
        (mmHandleKey .easy
          { pattern := p, currentStep := 0, showingPattern := false, score := 0,
            gameActive := true, gameOver := false, gameWon := false, round := r,
            lives := 3 } d).1.lives = 2
        ∧ (mmHandleKey .easy
          { pattern := p, currentStep := 0, showingPattern := false, score := 0,
            gameActive := true, gameOver := false, gameWon := false, round := r,
            lives := 3 } d).2 = .reshowPattern p
        ∧ (mmHandleKey .easy
          { pattern := p, currentStep := 0, showingPattern := false, score := 0,
            gameActive := true, gameOver := false, gameWon := false, round := r,
            lives := 3 } d).1.gameOver = false) := by
  refine ⟨?_, ?_, ?_⟩
  · intro rng
    simp [generatePatternList, patternLength]
  · intro d1 d2 lives
    simp [mmHandleKey]
  · intro p r d hp hd
    have hlen : 0 < p.length := hp
    have hd2 : ¬(d = p[0].direction) := by simpa using hd
    simp [mmHandleKey, hlen, hd2]

/-- Witness for `mirrorMoves_easy_round1` at concrete inputs: the
constant choice stream, the pattern `[up, down]` played correctly, and a
wrong `down` input against a pattern starting with `up`. -/
theorem mirrorMoves_easy_round1_witness :
    (generatePatternList .easy 1 (fun _ => 0)).length = 2
    ∧ (mmHandleKey .easy
        (mmHandleKey .easy
          { pattern := [⟨.up, false⟩, ⟨.down, false⟩], currentStep := 0,
            showingPattern := false, score := 0, gameActive := true, gameOver := false,
            gameWon := false, round := 1, lives := 3 } .up).1 .down).1.score = 24
    ∧ (mmHandleKey .easy
        { pattern := [⟨.up, false⟩, ⟨.left, false⟩], currentStep := 0,
          showingPattern := false, score := 0, gameActive := true, gameOver := false,
          gameWon := false, round := 1, lives := 3 } .down).1.lives = 2 := by
  refine ⟨mirrorMoves_easy_round1.1 (fun _ => 0), (mirrorMoves_easy_round1.2.1 .up .down 3).1,
    (mirrorMoves_easy_round1.2.2 [⟨.up, false⟩, ⟨.left, false⟩] 1 .down (by decide)
      (by decide)).1⟩

/-! ### Daily-challenge theorems -/

theorem getDailyChallenge_found {cs : List Challenge} {childId : ℕ} {today : ℤ}
    {c : Challenge} (f1 r1 r2 : ℕ)
    (h : cs.find? (challengeMatches childId today) = some c) :
    getDailyChallenge cs childId today f1 r1 r2 = (c, cs) := by
  unfold getDailyChallenge
  rw [h]

theorem getDailyChallenge_missing {cs : List Challenge} {childId : ℕ} {today : ℤ}
    (f1 r1 r2 : ℕ) (h : cs.find? (challengeMatches childId today) = none) :
    getDailyChallenge cs childId today f1 r1 r2 =
      (createDailyChallenge childId today f1 r1 r2,
        cs ++ [createDailyChallenge childId today f1 r1 r2]) := by
  unfold getDailyChallenge
  rw [h]

theorem createDailyChallenge_matches (childId : ℕ) (today : ℤ) (f1 r1 r2 : ℕ) :
    challengeMatches childId today (createDailyChallenge childId today f1 r1 r2) = true := by
  simp [challengeMatches, createDailyChallenge]

/-- C7: (i) two `getDailyChallenge` calls for the same child on the same
calendar day return the same challenge, the store unchanged after the
first call; (ii) when no challenge exists for the day, the first call
creates exactly one fresh uncompleted challenge for that child and day;
(iii) a saved result flips the `completed` flag of at most the first
matching challenge, only from `false` to `true`, and only when the
result's game type, level and day match — every other stored challenge
is untouched. -/
theorem dailyChallenge_idempotent :
    (∀ (cs : List Challenge) (childId : ℕ) (today : ℤ) (f1 r1 r2 f2 r3 r4 : ℕ),
      getDailyChallenge (getDailyChallenge cs childId today f1 r1 r2).2 childId today
          f2 r3 r4 =
        ((getDailyChallenge cs childId today f1 r1 r2).1,
          (getDailyChallenge cs childId today f1 r1 r2).2))
    ∧ (∀ (cs : List Challenge) (childId : ℕ) (today : ℤ) (f1 r1 r2 : ℕ),
        cs.find? (challengeMatches childId today) = none →
        (getDailyChallenge cs childId today f1 r1 r2).2 =
          cs ++ [(getDailyChallenge cs childId today f1 r1 r2).1]
        ∧ (getDailyChallenge cs childId today f1 r1 r2).1.completed = false
        ∧ (getDailyChallenge cs childId today f1 r1 r2).1.childId = childId
        ∧ (getDailyChallenge cs childId today f1 r1 r2).1.date = today)
    ∧ (∀ (cs : List Challenge) (childId : ℕ) (gt : GameType) (levelId : ℕ) (today : ℤ),
        List.Forall₂ (fun c c' => c' = c ∨
          (c.completed = false ∧ c.gameType = gt ∧ c.levelId = levelId ∧ c.date = today ∧
            c.childId = childId ∧ c' = { c with completed := true }))
          cs (markDailyChallenge cs childId gt levelId today)) := by
  refine ⟨?_, ?_, ?_⟩
  · intro cs childId today f1 r1 r2 f2 r3 r4
    cases h : cs.find? (challengeMatches childId today) with
    | some c =>
      rw [getDailyChallenge_found f1 r1 r2 h]
      exact getDailyChallenge_found f2 r3 r4 h
    | none =>
      rw [getDailyChallenge_missing f1 r1 r2 h]
      apply getDailyChallenge_found f2 r3 r4
      rw [List.find?_append, h, Option.none_or]
      simp [createDailyChallenge_matches]
  · intro cs childId today f1 r1 r2 h
    rw [getDailyChallenge_missing f1 r1 r2 h]
    exact ⟨rfl, rfl, rfl, rfl⟩
  · intro cs childId gt levelId today
    unfold markDailyChallenge
    induction cs with
    | nil => exact List.Forall₂.nil
    | cons c cs ih =>
      by_cases h : challengeSaveMatches childId gt levelId today c
      · have h' := h
        simp only [challengeSaveMatches, Bool.and_eq_true, decide_eq_true_eq,
          Bool.not_eq_true'] at h'
        simp only [setCompletedFirst, if_pos h]
        refine List.Forall₂.cons (Or.inr ⟨by tauto, by tauto, by tauto, by tauto, by tauto,
          rfl⟩) ?_
        exact List.forall₂_same.mpr fun x _ => Or.inl rfl
      · simp only [setCompletedFirst, if_neg h]
        exact List.Forall₂.cons (Or.inl rfl) ih

/-- Witness for `dailyChallenge_idempotent` at concrete inputs: the
empty store (the challenge is created on the first call and found again
by the second), and a one-element store being marked completed. -/
theorem dailyChallenge_idempotent_witness :
    (getDailyChallenge (getDailyChallenge [] 5 100 11 0 0).2 5 100 12 1 1 =
      ((getDailyChallenge [] 5 100 11 0 0).1, (getDailyChallenge [] 5 100 11 0 0).2))
    ∧ ([] : List Challenge).find? (challengeMatches 5 100) = none
    ∧ (getDailyChallenge [] 5 100 11 0 0).1.completed = false
    ∧ List.Forall₂ (fun c c' => c' = c ∨
        (c.completed = false ∧ c.gameType = .mageRun ∧ c.levelId = 1 ∧ c.date = (100:ℤ) ∧
          c.childId = 5 ∧ c' = { c with completed := true }))
        [⟨11, 5, .mageRun, 1, 100, false⟩]
        (markDailyChallenge [⟨11, 5, .mageRun, 1, 100, false⟩] 5 .mageRun 1 100) := by
  refine ⟨dailyChallenge_idempotent.1 [] 5 100 11 0 0 12 1 1, rfl,
    (dailyChallenge_idempotent.2.1 [] 5 100 11 0 0 rfl).2.1,
    dailyChallenge_idempotent.2.2 [⟨11, 5, .mageRun, 1, 100, false⟩] 5 .mageRun 1 100⟩

/-! ### Achievement theorems -/

theorem updateAchievement_step (aid now p : ℕ) (e : ChildAchievement) :
    ∃ e', updateAchievementProgress aid now p (some e) = some e'
      ∧ e.progress ≤ e'.progress
      ∧ ∀ t, e.unlockedAt = some t → e'.unlockedAt = some t := by
  unfold updateAchievementProgress
  cases h : achievementLookup aid with
  | none => exact ⟨e, rfl, le_refl _, fun t ht => ht⟩
  | some m =>
    refine ⟨_, rfl, le_max_left _ _, ?_⟩
    intro t ht
    simp [ht]

/-- C8: (i) for a known achievement id, an update of an existing record
stores exactly `max(existingProgress, newProgress)` and stamps
`unlockedAt` precisely when that maximum first reaches the achievement's
`maxProgress` (leaving an existing stamp untouched); (ii) across any
sequence of updates, progress never decreases and a set `unlockedAt` is
never changed; (iii) the first update creates the record, unlocking it
immediately iff the progress already reaches the maximum. -/
theorem achievement_progress_monotone :
    (∀ (aid now p : ℕ) (e : ChildAchievement) (m : ℕ), achievementLookup aid = some m →
      updateAchievementProgress aid now p (some e) =
        some { e with progress := max e.progress p,
                      unlockedAt := if (if m = 0 then 1 else m) ≤ max e.progress p ∧
                          e.unlockedAt = none then some now else e.unlockedAt })
    ∧ (∀ (aid : ℕ) (ops : List (ℕ × ℕ)) (e : ChildAchievement),
        ∃ e', applyAchievementOps aid ops (some e) = some e'
          ∧ e.progress ≤ e'.progress
          ∧ ∀ t, e.unlockedAt = some t → e'.unlockedAt = some t)
    ∧ (∀ (aid now p m : ℕ), achievementLookup aid = some m →
        updateAchievementProgress aid now p none =
          some ⟨p, if m = 0 then 1 else m,
            if (if m = 0 then 1 else m) ≤ p then some now else none⟩) := by
  refine ⟨?_, ?_, ?_⟩
  · intro aid now p e m h
    unfold updateAchievementProgress
    rw [h]
  · intro aid ops
    induction ops with
    | nil => exact fun e => ⟨e, rfl, le_refl _, fun t ht => ht⟩
    | cons op ops ih =>
      intro e
      obtain ⟨e1, h1, hp1, hu1⟩ := updateAchievement_step aid op.1 op.2 e
      obtain ⟨e', h', hp', hu'⟩ := ih e1
      refine ⟨e', ?_, le_trans hp1 hp', fun t ht => hu' t (hu1 t ht)⟩
      simp only [applyAchievementOps, List.foldl_cons]
      rw [h1]
      simpa [applyAchievementOps] using h'
  · intro aid now p m h
    unfold updateAchievementProgress createChildAchievement
    rw [h]

/-- Witness for `achievement_progress_monotone`: the Quick Learner
achievement (id 2, maxProgress 5) updated on an existing record
`⟨3, 5, none⟩`, a two-update run, and a fresh creation. -/
theorem achievement_progress_monotone_witness :
    achievementLookup 2 = some 5
    ∧ updateAchievementProgress 2 7 4 (some ⟨3, 5, none⟩) =
        some { progress := max 3 4,
               maxProgress := 5,
               unlockedAt := if (if (5:ℕ) = 0 then 1 else 5) ≤ max 3 4 ∧
                   (none : Option ℕ) = none then some 7 else none }
    ∧ (∃ e', applyAchievementOps 2 [(7, 4), (8, 5)] (some ⟨3, 5, some 6⟩) = some e'
        ∧ 3 ≤ e'.progress
        ∧ ∀ t, (some (6:ℕ) : Option ℕ) = some t → e'.unlockedAt = some t)
    ∧ updateAchievementProgress 2 7 1 none =
        some ⟨1, if (5:ℕ) = 0 then 1 else 5,
          if (if (5:ℕ) = 0 then 1 else 5) ≤ 1 then some 7 else none⟩ := by
  refine ⟨rfl, achievement_progress_monotone.1 2 7 4 ⟨3, 5, none⟩ 5 rfl, ?_, ?_⟩
  · exact achievement_progress_monotone.2.1 2 [(7, 4), (8, 5)] ⟨3, 5, some 6⟩
  · exact achievement_progress_monotone.2.2 2 7 1 5 rfl

/-! ### Maze generator: counting and monotonicity helpers -/

/-- Flipping a predicate from false to true at exactly one member of a
finite set increments the filter cardinality. -/
theorem filter_card_flip {α : Type} [DecidableEq α] (A : Finset α) (P Q : α → Prop)
    [DecidablePred P] [DecidablePred Q] (a : α) (ha : a ∈ A) (hPa : ¬P a) (hQa : Q a)
    (hagree : ∀ b ∈ A, b ≠ a → (P b ↔ Q b)) :
    (A.filter Q).card = (A.filter P).card + 1 := by
  have hins : A.filter Q = insert a (A.filter P) := by
    ext b
    simp only [Finset.mem_filter, Finset.mem_insert]
    constructor
    · rintro ⟨hbA, hQb⟩
      by_cases hba : b = a
      · exact Or.inl hba
      · exact Or.inr ⟨hbA, (hagree b hbA hba).mpr hQb⟩
    · rintro (rfl | ⟨hbA, hPb⟩)
      · exact ⟨ha, hQa⟩
      · by_cases hba : b = a
        · subst hba
          exact absurd hPb hPa
        · exact ⟨hbA, (hagree b hbA hba).mp hPb⟩
  rw [hins, Finset.card_insert_of_not_mem (by simp [Finset.mem_filter, hPa])]

/-- Removing walls can only create adjacencies. -/
theorem AdjOpen_mono {m m' : Maze}
    (hright : ∀ p, (m p).walls.right = false → (m' p).walls.right = false)
    (hbottom : ∀ p, (m p).walls.bottom = false → (m' p).walls.bottom = false) :
    ∀ p q, AdjOpen m p q → AdjOpen m' p q := by
  intro p q hadj
  rcases hadj with ⟨hq, ho⟩ | ⟨hq, ho⟩ | ⟨hq, ho⟩ | ⟨hq, ho⟩
  · exact Or.inl ⟨hq, hright p ho⟩
  · exact Or.inr (Or.inl ⟨hq, hright q ho⟩)
  · exact Or.inr (Or.inr (Or.inl ⟨hq, hbottom p ho⟩))
  · exact Or.inr (Or.inr (Or.inr ⟨hq, hbottom q ho⟩))

/-- Removing walls preserves reachability. -/
theorem Reach_mono {m m' : Maze}
    (hright : ∀ p, (m p).walls.right = false → (m' p).walls.right = false)
    (hbottom : ∀ p, (m p).walls.bottom = false → (m' p).walls.bottom = false)
    {p q : ℕ × ℕ} (h : Reach m p q) : Reach m' p q :=
  Relation.ReflTransGen.mono (AdjOpen_mono hright hbottom) h

/-- Opening one closed horizontal wall (in counting range) increments
the open-edge count. -/
theorem openEdgeCount_open_right (width height : ℕ) (m m' : Maze) (e : ℕ × ℕ)
    (hr : ∀ p, (m' p).walls.right = false ↔ ((m p).walls.right = false ∨ p = e))
    (hb : ∀ p, (m' p).walls.bottom = (m p).walls.bottom)
    (he : e.1 < width - 1 ∧ e.2 < height) (hclosed : (m e).walls.right = true) :
    openEdgeCount width height m' = openEdgeCount width height m + 1 := by
  unfold openEdgeCount
  have h1 : ((Finset.range (width - 1) ×ˢ Finset.range height).filter
      fun p => (m' p).walls.right = false).card
      = ((Finset.range (width - 1) ×ˢ Finset.range height).filter
      fun p => (m p).walls.right = false).card + 1 := by
    apply filter_card_flip _ _ _ e
    · simp [Finset.mem_product, he.1, he.2]
    · simp [hclosed]
    · exact (hr e).mpr (Or.inr rfl)
    · intro b _ hb'
      rw [hr b]
      simp [hb']
  have h2 : ((Finset.range width ×ˢ Finset.range (height - 1)).filter
      fun p => (m' p).walls.bottom = false)
      = ((Finset.range width ×ˢ Finset.range (height - 1)).filter
      fun p => (m p).walls.bottom = false) := by
    apply Finset.filter_congr
    intro p _
    rw [hb p]
  rw [h1, h2]
  omega

/-- Opening one closed vertical wall (in counting range) increments the
open-edge count. -/
theorem openEdgeCount_open_bottom (width height : ℕ) (m m' : Maze) (e : ℕ × ℕ)
    (hb : ∀ p, (m' p).walls.bottom = false ↔ ((m p).walls.bottom = false ∨ p = e))
    (hr : ∀ p, (m' p).walls.right = (m p).walls.right)
    (he : e.1 < width ∧ e.2 < height - 1) (hclosed : (m e).walls.bottom = true) :
    openEdgeCount width height m' = openEdgeCount width height m + 1 := by
  unfold openEdgeCount
  have h1 : ((Finset.range width ×ˢ Finset.range (height - 1)).filter
      fun p => (m' p).walls.bottom = false).card
      = ((Finset.range width ×ˢ Finset.range (height - 1)).filter
      fun p => (m p).walls.bottom = false).card + 1 := by
    apply filter_card_flip _ _ _ e
    · simp [Finset.mem_product, he.1, he.2]
    · simp [hclosed]
    · exact (hb e).mpr (Or.inr rfl)
    · intro b _ hb'
      rw [hb b]
      simp [hb']
  have h2 : ((Finset.range (width - 1) ×ˢ Finset.range height).filter
      fun p => (m' p).walls.right = false)
      = ((Finset.range (width - 1) ×ˢ Finset.range height).filter
      fun p => (m p).walls.right = false) := by
    apply Finset.filter_congr
    intro p _
    rw [hr p]
  rw [h1, h2]
  omega

/-- Newly visiting one unvisited grid cell increments the visited
count. -/
theorem visitedCount_visit (width height : ℕ) (m m' : Maze) (c : ℕ × ℕ)
    (hvis : ∀ p, (m' p).visited = true ↔ (p = c ∨ (m p).visited = true))
    (hc : inGrid width height c) (hunvis : (m c).visited = false) :
    visitedCount width height m' = visitedCount width height m + 1 := by
  unfold visitedCount
  apply filter_card_flip _ _ _ c
  · simp [Finset.mem_product, hc.1, hc.2]
  · simp [hunvis]
  · exact (hvis c).mpr (Or.inl rfl)
  · intro b _ hb'
    rw [hvis b]
    simp [hb']

/-! ### Carve characterization -/

theorem carve_visited (m : Maze) (cur next : ℕ × ℕ) (d : MazeDir) :
    ∀ p, (carve m cur next d p).visited = true ↔ (p = next ∨ (m p).visited = true) := by
  intro p
  by_cases h1 : p = next
  · simp [carve, h1]
  · by_cases h2 : p = cur
    · subst h2
      cases d <;> simp [carve, removeWallDir, h1]
    · simp [carve, h1, h2]

theorem carve_top_right (m : Maze) (cur : ℕ × ℕ) :
    ∀ p, (carve m cur (cur.1, cur.2 - 1) .top p).walls.right = (m p).walls.right := by
  intro p
  by_cases h1 : p = (cur.1, cur.2 - 1)
  · simp [carve, removeWallDir, oppMazeDir, h1]
  · by_cases h2 : p = cur
    · subst h2
      simp [carve, removeWallDir, h1]
    · simp [carve, removeWallDir, h1, h2]

theorem carve_top_bottom (m : Maze) (cur : ℕ × ℕ) (hpos : 0 < cur.2) :
    ∀ p, (carve m cur (cur.1, cur.2 - 1) .top p).walls.bottom = false ↔
      ((m p).walls.bottom = false ∨ p = (cur.1, cur.2 - 1)) := by
  intro p
  by_cases h1 : p = (cur.1, cur.2 - 1)
  · simp [carve, removeWallDir, oppMazeDir, h1]
  · by_cases h2 : p = cur
    · subst h2
      simp [carve, removeWallDir, h1]
    · simp [carve, removeWallDir, h1, h2]

theorem carve_right_bottom (m : Maze) (cur : ℕ × ℕ) :
    ∀ p, (carve m cur (cur.1 + 1, cur.2) .right p).walls.bottom = (m p).walls.bottom := by
  intro p
  by_cases h1 : p = (cur.1 + 1, cur.2)
  · simp [carve, removeWallDir, oppMazeDir, h1]
  · by_cases h2 : p = cur
    · subst h2
      simp [carve, removeWallDir, h1]
    · simp [carve, removeWallDir, h1, h2]

theorem carve_right_right (m : Maze) (cur : ℕ × ℕ) :
    ∀ p, (carve m cur (cur.1 + 1, cur.2) .right p).walls.right = false ↔
      ((m p).walls.right = false ∨ p = cur) := by
  intro p
  by_cases h1 : p = (cur.1 + 1, cur.2)
  · have hne : p ≠ cur := by
      subst h1
      intro hc
      simp [Prod.ext_iff] at hc
    simp [carve, removeWallDir, oppMazeDir, h1, hne]
    intro hc
    simp [Prod.ext_iff] at hc
  · by_cases h2 : p = cur
    · subst h2
      simp [carve, removeWallDir, h1]
    · simp [carve, removeWallDir, h1, h2]

theorem carve_bottom_right (m : Maze) (cur : ℕ × ℕ) :
    ∀ p, (carve m cur (cur.1, cur.2 + 1) .bottom p).walls.right = (m p).walls.right := by
  intro p
  by_cases h1 : p = (cur.1, cur.2 + 1)
  · simp [carve, removeWallDir, oppMazeDir, h1]
  · by_cases h2 : p = cur
    · subst h2
      simp [carve, removeWallDir, h1]
    · simp [carve, removeWallDir, h1, h2]

theorem carve_bottom_bottom (m : Maze) (cur : ℕ × ℕ) :
    ∀ p, (carve m cur (cur.1, cur.2 + 1) .bottom p).walls.bottom = false ↔
      ((m p).walls.bottom = false ∨ p = cur) := by
  intro p
  by_cases h1 : p = (cur.1, cur.2 + 1)
  · have hne : p ≠ cur := by
      subst h1
      intro hc
      simp [Prod.ext_iff] at hc
    simp [carve, removeWallDir, oppMazeDir, h1, hne]
    intro hc
    simp [Prod.ext_iff] at hc
  · by_cases h2 : p = cur
    · subst h2
      simp [carve, removeWallDir, h1]
    · simp [carve, removeWallDir, h1, h2]

theorem carve_left_bottom (m : Maze) (cur : ℕ × ℕ) :
    ∀ p, (carve m cur (cur.1 - 1, cur.2) .left p).walls.bottom = (m p).walls.bottom := by
  intro p
  by_cases h1 : p = (cur.1 - 1, cur.2)
  · simp [carve, removeWallDir, oppMazeDir, h1]
  · by_cases h2 : p = cur
    · subst h2
      simp [carve, removeWallDir, h1]
    · simp [carve, removeWallDir, h1, h2]

theorem carve_left_right (m : Maze) (cur : ℕ × ℕ) (hpos : 0 < cur.1) :
    ∀ p, (carve m cur (cur.1 - 1, cur.2) .left p).walls.right = false ↔
      ((m p).walls.right = false ∨ p = (cur.1 - 1, cur.2)) := by
  intro p
  by_cases h1 : p = (cur.1 - 1, cur.2)
  · simp [carve, removeWallDir, oppMazeDir, h1]
  · by_cases h2 : p = cur
    · subst h2
      simp [carve, removeWallDir, h1]
    · simp [carve, removeWallDir, h1, h2]

/-- Characterization of membership in the unvisited-neighbor list. -/
theorem mem_unvisitedNeighbors (width height : ℕ) (m : Maze) (cur : ℕ × ℕ)
    (q : ℕ × ℕ) (d : MazeDir)
    (hmem : (q, d) ∈ unvisitedNeighbors width height m cur) :
    (m q).visited = false ∧
    ((d = .top ∧ 0 < cur.2 ∧ q = (cur.1, cur.2 - 1)) ∨
     (d = .right ∧ cur.1 < width - 1 ∧ q = (cur.1 + 1, cur.2)) ∨
     (d = .bottom ∧ cur.2 < height - 1 ∧ q = (cur.1, cur.2 + 1)) ∨
     (d = .left ∧ 0 < cur.1 ∧ q = (cur.1 - 1, cur.2))) := by
  unfold unvisitedNeighbors at hmem
  simp only [List.mem_append] at hmem
  rcases hmem with ((h | h) | h) | h
  · by_cases hc : 0 < cur.2 ∧ (m (cur.1, cur.2 - 1)).visited = false
    · simp only [if_pos hc, List.mem_singleton, Prod.mk.injEq] at h
      obtain ⟨hq, hd⟩ := h
      subst hq
      subst hd
      exact ⟨hc.2, Or.inl ⟨rfl, hc.1, rfl⟩⟩
    · simp [hc] at h
  · by_cases hc : cur.1 < width - 1 ∧ (m (cur.1 + 1, cur.2)).visited = false
    · simp only [if_pos hc, List.mem_singleton, Prod.mk.injEq] at h
      obtain ⟨hq, hd⟩ := h
      subst hq
      subst hd
      exact ⟨hc.2, Or.inr (Or.inl ⟨rfl, hc.1, rfl⟩)⟩
    · simp [hc] at h
  · by_cases hc : cur.2 < height - 1 ∧ (m (cur.1, cur.2 + 1)).visited = false
    · simp only [if_pos hc, List.mem_singleton, Prod.mk.injEq] at h
      obtain ⟨hq, hd⟩ := h
      subst hq
      subst hd
      exact ⟨hc.2, Or.inr (Or.inr (Or.inl ⟨rfl, hc.1, rfl⟩))⟩
    · simp [hc] at h
  · by_cases hc : 0 < cur.1 ∧ (m (cur.1 - 1, cur.2)).visited = false
    · simp only [if_pos hc, List.mem_singleton, Prod.mk.injEq] at h
      obtain ⟨hq, hd⟩ := h
      subst hq
      subst hd
      exact ⟨hc.2, Or.inr (Or.inr (Or.inr ⟨rfl, hc.1, rfl⟩))⟩
    · simp [hc] at h

/-- An empty unvisited-neighbor list means every grid neighbor is
visited. -/
theorem unvisitedNeighbors_nil (width height : ℕ) (m : Maze) (cur : ℕ × ℕ)
    (hnil : ¬0 < (unvisitedNeighbors width height m cur).length)
    (_hcur : inGrid width height cur) :
    ∀ q, gridAdj width height cur q → (m q).visited = true := by
  intro q hadj
  have hempty : unvisitedNeighbors width height m cur = [] := by
    cases hl : unvisitedNeighbors width height m cur with
    | nil => rfl
    | cons a l => rw [hl] at hnil; simp at hnil
  by_contra hvq
  have hvq' : (m q).visited = false := by
    cases hv : (m q).visited
    · rfl
    · exact absurd hv hvq
  obtain ⟨hqgrid, hrel⟩ := hadj
  have : ∃ d, (q, d) ∈ unvisitedNeighbors width height m cur := by
    unfold unvisitedNeighbors
    rcases hrel with hq | hq | hq | hq
    · refine ⟨.right, ?_⟩
      have hcond : cur.1 < width - 1 ∧ (m (cur.1 + 1, cur.2)).visited = false := by
        constructor
        · have : q.1 < width := hqgrid.1
          rw [hq] at this
          omega
        · rw [← hq]
          exact hvq'
      simp [hcond, hq]
    · refine ⟨.left, ?_⟩
      have hq1 : 0 < cur.1 := by
        rw [hq]
        simp
      have hcond : 0 < cur.1 ∧ (m (cur.1 - 1, cur.2)).visited = false := by
        refine ⟨hq1, ?_⟩
        have hqeq : q = (cur.1 - 1, cur.2) := by
          rw [hq]
          simp [Prod.ext_iff]
        rw [← hqeq]
        exact hvq'
      have hqeq : q = (cur.1 - 1, cur.2) := by
        rw [hq]
        simp [Prod.ext_iff]
      simp [hcond, hqeq]
    · refine ⟨.bottom, ?_⟩
      have hcond : cur.2 < height - 1 ∧ (m (cur.1, cur.2 + 1)).visited = false := by
        constructor
        · have : q.2 < height := hqgrid.2
          rw [hq] at this
          omega
        · rw [← hq]
          exact hvq'
      simp [hcond, hq]
    · refine ⟨.top, ?_⟩
      have hq2 : 0 < cur.2 := by
        rw [hq]
        simp
      have hcond : 0 < cur.2 ∧ (m (cur.1, cur.2 - 1)).visited = false := by
        refine ⟨hq2, ?_⟩
        have hqeq : q = (cur.1, cur.2 - 1) := by
          rw [hq]
          simp [Prod.ext_iff]
        rw [← hqeq]
        exact hvq'
      have hqeq : q = (cur.1, cur.2 - 1) := by
        rw [hq]
        simp [Prod.ext_iff]
      simp [hcond, hqeq]
  obtain ⟨d, hd⟩ := this
  rw [hempty] at hd
  simp at hd

/-! ### Invariant preservation -/

/-- Pushing a neighbor across a newly opened horizontal edge preserves
the invariant.  `e` is the left cell of the opened edge; the edge
connects `cur` and `next` in one of the two orientations. -/
theorem geninv_push_horiz {width height : ℕ} {s : GenState} (hinv : GenInv width height s)
    (m' : Maze) {cur next e : ℕ × ℕ} (t' : ℕ)
    (hcur_grid : inGrid width height cur) (hcur_vis : (s.maze cur).visited = true)
    (hnext_grid : inGrid width height next) (hnv : (s.maze next).visited = false)
    (hvis : ∀ p, (m' p).visited = true ↔ (p = next ∨ (s.maze p).visited = true))
    (hR : ∀ p, (m' p).walls.right = false ↔ ((s.maze p).walls.right = false ∨ p = e))
    (hB : ∀ p, (m' p).walls.bottom = (s.maze p).walls.bottom)
    (hend : (e = cur ∧ next = (e.1 + 1, e.2)) ∨ (e = next ∧ cur = (e.1 + 1, e.2)))
    (he_range : e.1 < width - 1 ∧ e.2 < height) :
    GenInv width height ⟨m', next :: s.stack, t'⟩ := by
  have hmono_r : ∀ p, (s.maze p).walls.right = false → (m' p).walls.right = false :=
    fun p h => (hR p).mpr (Or.inl h)
  have hmono_b : ∀ p, (s.maze p).walls.bottom = false → (m' p).walls.bottom = false :=
    fun p h => by rw [hB p]; exact h
  have hvis_mono : ∀ p, (s.maze p).visited = true → (m' p).visited = true :=
    fun p h => (hvis p).mpr (Or.inr h)
  have hnext_vis : (m' next).visited = true := (hvis next).mpr (Or.inl rfl)
  have hclosed_e : (s.maze e).walls.right = true := by
    cases hv : (s.maze e).walls.right
    · exfalso
      have h2 := hinv.right_vis e hv
      rcases hend with ⟨he, hn⟩ | ⟨he, hn⟩
      · have h22 := h2.2
        rw [← hn] at h22
        rw [h22] at hnv
        simp at hnv
      · have h21 := h2.1
        rw [← he] at hnv
        rw [h21] at hnv
        simp at hnv
    · rfl
  have hadj : AdjOpen m' cur next := by
    rcases hend with ⟨he, hn⟩ | ⟨he, hn⟩
    · refine Or.inl ⟨?_, (hR cur).mpr (Or.inr he.symm)⟩
      rw [← he]
      exact hn
    · refine Or.inr (Or.inl ⟨?_, (hR next).mpr (Or.inr he.symm)⟩)
      rw [← he]
      exact hn
  refine { stack_visited := ?_, origin_visited := hvis_mono _ hinv.origin_visited,
           reach := ?_, right_vis := ?_, bottom_vis := ?_, count := ?_, closed := ?_ }
  · intro p hp
    rcases List.mem_cons.mp hp with rfl | hp'
    · exact ⟨hnext_grid, hnext_vis⟩
    · obtain ⟨hg, hv⟩ := hinv.stack_visited p hp'
      exact ⟨hg, hvis_mono p hv⟩
  · intro p hg hv
    rcases (hvis p).mp hv with rfl | hv'
    · exact Relation.ReflTransGen.tail
        (Reach_mono hmono_r hmono_b (hinv.reach cur hcur_grid hcur_vis)) hadj
    · exact Reach_mono hmono_r hmono_b (hinv.reach p hg hv')
  · intro p hp
    rcases (hR p).mp hp with hold | hpe
    · obtain ⟨h1, h2⟩ := hinv.right_vis p hold
      exact ⟨hvis_mono p h1, hvis_mono _ h2⟩
    · subst hpe
      rcases hend with ⟨he, hn⟩ | ⟨he, hn⟩
      · constructor
        · rw [he]
          exact hvis_mono cur hcur_vis
        · rw [← hn]
          exact hnext_vis
      · constructor
        · rw [he]
          exact hnext_vis
        · rw [← hn]
          exact hvis_mono cur hcur_vis
  · intro p hp
    rw [hB p] at hp
    obtain ⟨h1, h2⟩ := hinv.bottom_vis p hp
    exact ⟨hvis_mono p h1, hvis_mono _ h2⟩
  · have h1 := openEdgeCount_open_right width height s.maze m' e hR hB he_range hclosed_e
    have h2 := visitedCount_visit width height s.maze m' next hvis hnext_grid hnv
    have h3 := hinv.count
    show openEdgeCount width height m' + 1 = visitedCount width height m'
    omega
  · intro p hg hv hns q hq
    have hpn : p ≠ next := fun h => hns (h ▸ List.mem_cons_self _ _)
    have hps : p ∉ s.stack := fun h => hns (List.mem_cons_of_mem _ h)
    rcases (hvis p).mp hv with hpe | hv'
    · exact absurd hpe hpn
    · exact hvis_mono q (hinv.closed p hg hv' hps q hq)

/-- Pushing a neighbor across a newly opened vertical edge preserves
the invariant.  `e` is the upper cell of the opened edge. -/
theorem geninv_push_vert {width height : ℕ} {s : GenState} (hinv : GenInv width height s)
    (m' : Maze) {cur next e : ℕ × ℕ} (t' : ℕ)
    (hcur_grid : inGrid width height cur) (hcur_vis : (s.maze cur).visited = true)
    (hnext_grid : inGrid width height next) (hnv : (s.maze next).visited = false)
    (hvis : ∀ p, (m' p).visited = true ↔ (p = next ∨ (s.maze p).visited = true))
    (hB : ∀ p, (m' p).walls.bottom = false ↔ ((s.maze p).walls.bottom = false ∨ p = e))
    (hR : ∀ p, (m' p).walls.right = (s.maze p).walls.right)
    (hend : (e = cur ∧ next = (e.1, e.2 + 1)) ∨ (e = next ∧ cur = (e.1, e.2 + 1)))
    (he_range : e.1 < width ∧ e.2 < height - 1) :
    GenInv width height ⟨m', next :: s.stack, t'⟩ := by
  have hmono_b : ∀ p, (s.maze p).walls.bottom = false → (m' p).walls.bottom = false :=
    fun p h => (hB p).mpr (Or.inl h)
  have hmono_r : ∀ p, (s.maze p).walls.right = false → (m' p).walls.right = false :=
    fun p h => by rw [hR p]; exact h
  have hvis_mono : ∀ p, (s.maze p).visited = true → (m' p).visited = true :=
    fun p h => (hvis p).mpr (Or.inr h)
  have hnext_vis : (m' next).visited = true := (hvis next).mpr (Or.inl rfl)
  have hclosed_e : (s.maze e).walls.bottom = true := by
    cases hv : (s.maze e).walls.bottom
    · exfalso
      have h2 := hinv.bottom_vis e hv
      rcases hend with ⟨he, hn⟩ | ⟨he, hn⟩
      · have h22 := h2.2
        rw [← hn] at h22
        rw [h22] at hnv
        simp at hnv
      · have h21 := h2.1
        rw [← he] at hnv
        rw [h21] at hnv
        simp at hnv
    · rfl
  have hadj : AdjOpen m' cur next := by
    rcases hend with ⟨he, hn⟩ | ⟨he, hn⟩
    · refine Or.inr (Or.inr (Or.inl ⟨?_, (hB cur).mpr (Or.inr he.symm)⟩))
      rw [← he]
      exact hn
    · refine Or.inr (Or.inr (Or.inr ⟨?_, (hB next).mpr (Or.inr he.symm)⟩))
      rw [← he]
      exact hn
  refine { stack_visited := ?_, origin_visited := hvis_mono _ hinv.origin_visited,
           reach := ?_, right_vis := ?_, bottom_vis := ?_, count := ?_, closed := ?_ }
  · intro p hp
    rcases List.mem_cons.mp hp with rfl | hp'
    · exact ⟨hnext_grid, hnext_vis⟩
    · obtain ⟨hg, hv⟩ := hinv.stack_visited p hp'
      exact ⟨hg, hvis_mono p hv⟩
  · intro p hg hv
    rcases (hvis p).mp hv with rfl | hv'
    · exact Relation.ReflTransGen.tail
        (Reach_mono hmono_r hmono_b (hinv.reach cur hcur_grid hcur_vis)) hadj
    · exact Reach_mono hmono_r hmono_b (hinv.reach p hg hv')
  · intro p hp
    rw [hR p] at hp
    obtain ⟨h1, h2⟩ := hinv.right_vis p hp
    exact ⟨hvis_mono p h1, hvis_mono _ h2⟩
  · intro p hp
    rcases (hB p).mp hp with hold | hpe
    · obtain ⟨h1, h2⟩ := hinv.bottom_vis p hold
      exact ⟨hvis_mono p h1, hvis_mono _ h2⟩
    · subst hpe
      rcases hend with ⟨he, hn⟩ | ⟨he, hn⟩
      · constructor
        · rw [he]
          exact hvis_mono cur hcur_vis
        · rw [← hn]
          exact hnext_vis
      · constructor
        · rw [he]
          exact hnext_vis
        · rw [← hn]
          exact hvis_mono cur hcur_vis
  · have h1 := openEdgeCount_open_bottom width height s.maze m' e hB hR he_range hclosed_e
    have h2 := visitedCount_visit width height s.maze m' next hvis hnext_grid hnv
    have h3 := hinv.count
    show openEdgeCount width height m' + 1 = visitedCount width height m'
    omega
  · intro p hg hv hns q hq
    have hpn : p ≠ next := fun h => hns (h ▸ List.mem_cons_self _ _)
    have hps : p ∉ s.stack := fun h => hns (List.mem_cons_of_mem _ h)
    rcases (hvis p).mp hv with hpe | hv'
    · exact absurd hpe hpn
    · exact hvis_mono q (hinv.closed p hg hv' hps q hq)

/-- A chosen unvisited neighbor lies in the grid. -/
theorem mem_unvisitedNeighbors_grid {width height : ℕ} {m : Maze} {cur q : ℕ × ℕ}
    {d : MazeDir} (hmem : (q, d) ∈ unvisitedNeighbors width height m cur)
    (hcur : inGrid width height cur) : inGrid width height q := by
  obtain ⟨_, hcases⟩ := mem_unvisitedNeighbors width height m cur q d hmem
  have h1 := hcur.1
  have h2 := hcur.2
  rcases hcases with ⟨_, hpos, hq⟩ | ⟨_, hpos, hq⟩ | ⟨_, hpos, hq⟩ | ⟨_, hpos, hq⟩ <;>
    subst hq
  · exact ⟨h1, by show cur.2 - 1 < height; omega⟩
  · exact ⟨by show cur.1 + 1 < width; omega, h2⟩
  · exact ⟨h1, by show cur.2 + 1 < height; omega⟩
  · exact ⟨by show cur.1 - 1 < width; omega, h2⟩

/-- Carving towards any chosen unvisited neighbor preserves the
invariant. -/
theorem geninv_carve {width height : ℕ} {s : GenState} (hinv : GenInv width height s)
    {cur : ℕ × ℕ} (hcur : cur ∈ s.stack) {next : ℕ × ℕ} {d : MazeDir}
    (hmem : (next, d) ∈ unvisitedNeighbors width height s.maze cur) (t' : ℕ) :
    GenInv width height ⟨carve s.maze cur next d, next :: s.stack, t'⟩ := by
  obtain ⟨hcg, hcv⟩ := hinv.stack_visited cur hcur
  have hng : inGrid width height next := mem_unvisitedNeighbors_grid hmem hcg
  obtain ⟨hnv, hcases⟩ := mem_unvisitedNeighbors width height s.maze cur next d hmem
  have hw1 := hcg.1
  have hw2 := hcg.2
  rcases hcases with ⟨hd, hpos, hq⟩ | ⟨hd, hpos, hq⟩ | ⟨hd, hpos, hq⟩ | ⟨hd, hpos, hq⟩ <;>
    subst hd <;> subst hq
  · refine geninv_push_vert hinv _ t' hcg hcv hng hnv
      (carve_visited s.maze cur _ .top) (carve_top_bottom s.maze cur hpos)
      (carve_top_right s.maze cur) (Or.inr ⟨rfl, ?_⟩) ⟨hw1, by show cur.2 - 1 < height - 1; omega⟩
    show cur = (cur.1, cur.2 - 1 + 1)
    have h : cur.2 - 1 + 1 = cur.2 := by omega
    rw [h]
  · exact geninv_push_horiz hinv _ t' hcg hcv hng hnv
      (carve_visited s.maze cur _ .right) (carve_right_right s.maze cur)
      (carve_right_bottom s.maze cur) (Or.inl ⟨rfl, rfl⟩) ⟨hpos, hw2⟩
  · exact geninv_push_vert hinv _ t' hcg hcv hng hnv
      (carve_visited s.maze cur _ .bottom) (carve_bottom_bottom s.maze cur)
      (carve_bottom_right s.maze cur) (Or.inl ⟨rfl, rfl⟩) ⟨hw1, hpos⟩
  · refine geninv_push_horiz hinv _ t' hcg hcv hng hnv
      (carve_visited s.maze cur _ .left) (carve_left_right s.maze cur hpos)
      (carve_left_bottom s.maze cur) (Or.inr ⟨rfl, ?_⟩) ⟨by show cur.1 - 1 < width - 1; omega, hw2⟩
    show cur = (cur.1 - 1 + 1, cur.2)
    have h : cur.1 - 1 + 1 = cur.1 := by omega
    rw [h]

/-- Carving visits one previously unvisited grid cell. -/
theorem carve_measure {width height : ℕ} {s : GenState} (hinv : GenInv width height s)
    {cur : ℕ × ℕ} (hcur : cur ∈ s.stack) {next : ℕ × ℕ} {d : MazeDir}
    (hmem : (next, d) ∈ unvisitedNeighbors width height s.maze cur) :
    visitedCount width height (carve s.maze cur next d)
      = visitedCount width height s.maze + 1
    ∧ visitedCount width height s.maze < width * height := by
  obtain ⟨hcg, _⟩ := hinv.stack_visited cur hcur
  have hng : inGrid width height next := mem_unvisitedNeighbors_grid hmem hcg
  obtain ⟨hnv, _⟩ := mem_unvisitedNeighbors width height s.maze cur next d hmem
  constructor
  · exact visitedCount_visit width height s.maze _ next
      (carve_visited s.maze cur next d) hng hnv
  · have hsub : (Finset.range width ×ˢ Finset.range height).filter
        (fun p => (s.maze p).visited = true) ⊂ Finset.range width ×ˢ Finset.range height := by
      refine Finset.ssubset_iff_of_subset (Finset.filter_subset _ _) |>.mpr ?_
      refine ⟨next, ?_, ?_⟩
      · simp [Finset.mem_product, hng.1, hng.2]
      · simp [Finset.mem_filter, hnv]
    have := Finset.card_lt_card hsub
    unfold visitedCount
    calc ((Finset.range width ×ˢ Finset.range height).filter
        (fun p => (s.maze p).visited = true)).card
        < (Finset.range width ×ˢ Finset.range height).card := this
      _ = width * height := by simp [Finset.card_product]

/-- Popping a fully explored cell preserves the invariant. -/
theorem geninv_pop {width height : ℕ} {s : GenState} (hinv : GenInv width height s)
    {cur : ℕ × ℕ} {rest : List (ℕ × ℕ)} (hstack : s.stack = cur :: rest)
    (hnil : ¬0 < (unvisitedNeighbors width height s.maze cur).length) (t' : ℕ) :
    GenInv width height ⟨s.maze, rest, t'⟩ := by
  obtain ⟨hcg, hcv⟩ := hinv.stack_visited cur (by rw [hstack]; exact List.mem_cons_self _ _)
  refine { stack_visited := ?_, origin_visited := hinv.origin_visited,
           reach := hinv.reach, right_vis := hinv.right_vis, bottom_vis := hinv.bottom_vis,
           count := hinv.count, closed := ?_ }
  · intro p hp
    exact hinv.stack_visited p (by rw [hstack]; exact List.mem_cons_of_mem _ hp)
  · intro p hg hv hns q hq
    by_cases hpc : p = cur
    · subst hpc
      exact unvisitedNeighbors_nil width height s.maze p hnil hg q hq
    · refine hinv.closed p hg hv ?_ q hq
      rw [hstack]
      intro hmem
      rcases List.mem_cons.mp hmem with h | h
      · exact hpc h
      · exact hns h

/-- The main loop theorem: enough fuel and the invariant at entry give
the invariant (with an empty stack) at exit. -/
theorem genLoop_inv (width height : ℕ) (rng : ℕ → ℕ) :
    ∀ (fuel : ℕ) (s : GenState),
      2 * (width * height - visitedCount width height s.maze) + s.stack.length ≤ fuel →
      GenInv width height s →
      GenInv width height ⟨genLoop width height rng fuel s, [], 0⟩ := by
  intro fuel
  induction fuel with
  | zero =>
    intro s hm hinv
    have hstack : s.stack = [] := by
      cases hs : s.stack
      · rfl
      · rw [hs] at hm
        simp at hm
    show GenInv width height ⟨s.maze, [], 0⟩
    exact { stack_visited := by simp, origin_visited := hinv.origin_visited,
            reach := hinv.reach, right_vis := hinv.right_vis,
            bottom_vis := hinv.bottom_vis, count := hinv.count,
            closed := fun p hg hv _ q hq =>
              hinv.closed p hg hv (by rw [hstack]; simp) q hq }
  | succ fuel ih =>
    intro s hm hinv
    rw [genLoop]
    cases hs : s.stack with
    | nil =>
      have hstack := hs
      simp only [hs]
      exact { stack_visited := by simp, origin_visited := hinv.origin_visited,
              reach := hinv.reach, right_vis := hinv.right_vis,
              bottom_vis := hinv.bottom_vis, count := hinv.count,
              closed := fun p hg hv _ q hq =>
                hinv.closed p hg hv (by rw [hstack]; simp) q hq }
    | cons cur rest =>
      simp only [hs]
      split
      · -- push branch
        rename_i hns
        set ns := unvisitedNeighbors width height s.maze cur with hns_def
        set choice := ns.get ⟨rng s.t % ns.length, Nat.mod_lt _ hns⟩ with hchoice
        have hchoice_mem : (choice.1, choice.2) ∈ ns :=
          List.get_mem ns (rng s.t % ns.length) (Nat.mod_lt _ hns)
        have hcur_mem : cur ∈ s.stack := by
          rw [hs]
          exact List.mem_cons_self _ _
        have hinv' := geninv_carve hinv hcur_mem hchoice_mem (s.t + 1)
        have hmeasure := carve_measure hinv hcur_mem hchoice_mem
        apply ih
        · show 2 * (width * height -
            visitedCount width height (carve s.maze cur choice.1 choice.2)) +
            (choice.1 :: cur :: rest).length ≤ fuel
          rw [hmeasure.1]
          rw [hs] at hm
          simp only [List.length_cons] at hm ⊢
          omega
        · rw [hs] at hinv'
          exact hinv'
      · -- pop branch
        rename_i hns
        apply ih
        · show 2 * (width * height - visitedCount width height s.maze) + rest.length ≤ fuel
          rw [hs] at hm
          simp only [List.length_cons] at hm
          omega
        · exact geninv_pop hinv hs hns s.t

/-! ### Final assembly for the maze theorem -/

/-- The invariant holds at loop entry: only `(0, 0)` is visited and on
the stack, no wall is open. -/
theorem geninv_init (width height : ℕ) (hw : 0 < width) (hh : 0 < height) :
    GenInv width height
      ⟨fun p => if p = (0, 0) then ⟨⟨true, true, true, true⟩, true⟩ else initMaze p,
        [(0, 0)], 0⟩ := by
  refine { stack_visited := ?_, origin_visited := by simp, reach := ?_, right_vis := ?_,
           bottom_vis := ?_, count := ?_, closed := ?_ }
  · intro p hp
    rcases List.mem_singleton.mp hp with rfl
    exact ⟨⟨hw, hh⟩, by simp⟩
  · intro p hg hv
    by_cases hp : p = (0, 0)
    · subst hp
      exact Relation.ReflTransGen.refl
    · have hp0 : ¬p = 0 := hp
      simp [hp0, initMaze] at hv
  · intro p hp
    by_cases hpz : p = (0, 0)
    · have hpz0 : p = 0 := hpz
      simp [hpz0, initMaze] at hp
    · have hpz0 : ¬p = 0 := hpz
      simp [hpz0, initMaze] at hp
  · intro p hp
    by_cases hpz : p = (0, 0)
    · have hpz0 : p = 0 := hpz
      simp [hpz0, initMaze] at hp
    · have hpz0 : ¬p = 0 := hpz
      simp [hpz0, initMaze] at hp
  · have hedge : openEdgeCount width height
        (fun p => if p = (0, 0) then ⟨⟨true, true, true, true⟩, true⟩ else initMaze p) = 0 := by
      unfold openEdgeCount
      rw [Finset.filter_eq_empty_iff.mpr, Finset.filter_eq_empty_iff.mpr]
      · simp
      · intro p _
        by_cases hpz : p = (0, 0)
        · have hpz0 : p = 0 := hpz
          simp [hpz0, initMaze]
        · have hpz0 : ¬p = 0 := hpz
          simp [hpz0, initMaze]
      · intro p _
        by_cases hpz : p = (0, 0)
        · have hpz0 : p = 0 := hpz
          simp [hpz0, initMaze]
        · have hpz0 : ¬p = 0 := hpz
          simp [hpz0, initMaze]
    have hvc : visitedCount width height
        (fun p => if p = (0, 0) then ⟨⟨true, true, true, true⟩, true⟩ else initMaze p) = 1 := by
      unfold visitedCount
      have : ((Finset.range width ×ˢ Finset.range height).filter
          fun p => ((fun p => if p = (0, 0) then (⟨⟨true, true, true, true⟩, true⟩ : MazeCell)
            else initMaze p) p).visited = true) = {(0, 0)} := by
        ext p
        simp only [Finset.mem_filter, Finset.mem_product, Finset.mem_range,
          Finset.mem_singleton]
        constructor
        · rintro ⟨_, hv⟩
          by_cases hpz : p = (0, 0)
          · exact hpz
          · have hpz0 : ¬p = 0 := hpz
            simp [hpz0, initMaze] at hv
        · rintro rfl
          exact ⟨⟨hw, hh⟩, by simp⟩
      rw [this]
      rfl
    show openEdgeCount width height _ + 1 = visitedCount width height _
    rw [hedge, hvc]
  · intro p hg hv hns q hq
    exfalso
    by_cases hpz : p = (0, 0)
    · subst hpz
      exact hns (List.mem_singleton.mpr rfl)
    · have hpz0 : ¬p = 0 := hpz
      simp [hpz0, initMaze] at hv

/-- When the stack has emptied, every grid cell is visited: visited
cells are closed under grid adjacency, `(0, 0)` is visited, and the grid
is connected (walk along the first row, then up each column). -/
theorem post_all_visited {width height : ℕ} {m : Maze}
    (hinv : GenInv width height ⟨m, [], 0⟩) (_hw : 0 < width) (hh : 0 < height) :
    ∀ p, inGrid width height p → (m p).visited = true := by
  have hclosed : ∀ p, inGrid width height p → (m p).visited = true →
      ∀ q, gridAdj width height p q → (m q).visited = true :=
    fun p hg hv q hq => hinv.closed p hg hv (by simp) q hq
  have hrow : ∀ x, x < width → (m (x, 0)).visited = true := by
    intro x
    induction x with
    | zero => exact fun _ => hinv.origin_visited
    | succ x ihx =>
      intro hx
      have hxw : x < width := by omega
      exact hclosed (x, 0) ⟨hxw, hh⟩ (ihx hxw) (x + 1, 0) ⟨⟨hx, hh⟩, Or.inl rfl⟩
  have hcol : ∀ y x, x < width → y < height → (m (x, y)).visited = true := by
    intro y
    induction y with
    | zero => exact fun x hx _ => hrow x hx
    | succ y ihy =>
      intro x hx hy
      have hyh : y < height := by omega
      exact hclosed (x, y) ⟨hx, hyh⟩ (ihy x hx hyh) (x, y + 1)
        ⟨⟨hx, hy⟩, Or.inr (Or.inr (Or.inl rfl))⟩
  exact fun p hg => hcol p.2 p.1 hg.1 hg.2

/-- A fully visited grid has `width · height` visited cells. -/
theorem visitedCount_full {width height : ℕ} {m : Maze}
    (hall : ∀ p, inGrid width height p → (m p).visited = true) :
    visitedCount width height m = width * height := by
  unfold visitedCount
  rw [Finset.filter_true_of_mem]
  · simp
  · intro p hp
    simp only [Finset.mem_product, Finset.mem_range] at hp
    exact hall p ⟨hp.1, hp.2⟩

theorem openOuterWalls_right (width height : ℕ) (m : Maze) :
    ∀ p, ((openOuterWalls width height m) p).walls.right = (m p).walls.right := by
  intro p
  simp only [openOuterWalls]
  split_ifs <;> rfl

theorem openOuterWalls_bottom (width height : ℕ) (m : Maze) :
    ∀ p, (m p).walls.bottom = false →
      ((openOuterWalls width height m) p).walls.bottom = false := by
  intro p hp
  simp only [openOuterWalls]
  split_ifs <;> first | rfl | exact hp

theorem openOuterWalls_bottom_eq (width height : ℕ) (m : Maze) :
    ∀ p, p ≠ (width - 1, height - 1) →
      ((openOuterWalls width height m) p).walls.bottom = (m p).walls.bottom := by
  intro p hp
  simp only [openOuterWalls]
  split_ifs with h1 h2 h2
  · exact absurd h1 hp
  · exact absurd h1 hp
  · rfl
  · rfl

/-- The outer-wall openings touch no internal edge, so the open
internal edge count is unchanged. -/
theorem openOuterWalls_edgeCount (width height : ℕ) (m : Maze) :
    openEdgeCount width height (openOuterWalls width height m)
      = openEdgeCount width height m := by
  unfold openEdgeCount
  have h1 : ((Finset.range (width - 1) ×ˢ Finset.range height).filter
      fun p => ((openOuterWalls width height m) p).walls.right = false)
      = ((Finset.range (width - 1) ×ˢ Finset.range height).filter
      fun p => (m p).walls.right = false) := by
    apply Finset.filter_congr
    intro p _
    rw [openOuterWalls_right]
  have h2 : ((Finset.range width ×ˢ Finset.range (height - 1)).filter
      fun p => ((openOuterWalls width height m) p).walls.bottom = false)
      = ((Finset.range width ×ˢ Finset.range (height - 1)).filter
      fun p => (m p).walls.bottom = false) := by
    apply Finset.filter_congr
    intro p hp
    simp only [Finset.mem_product, Finset.mem_range] at hp
    have hne : p ≠ (width - 1, height - 1) := by
      intro hc
      rw [hc] at hp
      omega
    rw [openOuterWalls_bottom_eq width height m p hne]
  rw [h1, h2]

/-- C5: for every grid size `width, height ≥ 2` and every sequence of
random draws, the generated maze's open internal edges connect every
cell to the entrance `(0, 0)`, and there are exactly
`width·height - 1` of them: the open edges form a spanning tree of the
grid graph. -/
theorem generateMaze_spanning_tree (width height : ℕ) (hw : 2 ≤ width) (hh : 2 ≤ height)
    (rng : ℕ → ℕ) :
    (∀ p, inGrid width height p → Reach (generateMaze width height rng) (0, 0) p)
    ∧ openEdgeCount width height (generateMaze width height rng)
      = width * height - 1 := by
  have hw1 : 0 < width := by omega
  have hh1 : 0 < height := by omega
  have hinvf := genLoop_inv width height rng (2 * width * height + 1)
    ⟨fun p => if p = (0, 0) then ⟨⟨true, true, true, true⟩, true⟩ else initMaze p,
      [(0, 0)], 0⟩
    (by
      simp only [List.length_cons, List.length_nil]
      have hlin : 2 * (width * height) = 2 * width * height := by ring
      omega)
    (geninv_init width height hw1 hh1)
  set mf := genLoop width height rng (2 * width * height + 1)
    ⟨fun p => if p = (0, 0) then ⟨⟨true, true, true, true⟩, true⟩ else initMaze p,
      [(0, 0)], 0⟩ with hmf
  have hall : ∀ p, inGrid width height p → (mf p).visited = true :=
    post_all_visited hinvf hw1 hh1
  have hcount : openEdgeCount width height mf + 1 = width * height := by
    have hc := hinvf.count
    have hfull : visitedCount width height mf = width * height := visitedCount_full hall
    rw [hfull] at hc
    exact hc
  have hgen : generateMaze width height rng = openOuterWalls width height mf := rfl
  constructor
  · intro p hg
    rw [hgen]
    refine Reach_mono ?_ (openOuterWalls_bottom width height mf) ?_
    · intro q hq
      rw [openOuterWalls_right]
      exact hq
    · exact hinvf.reach p hg (hall p hg)
  · rw [hgen, openOuterWalls_edgeCount]
    omega

/-- Witness for `generateMaze_spanning_tree` on a 2×2 grid with the
constant-zero draw stream; the reachability conclusion is instantiated
at the exit cell `(1, 1)`. -/
theorem generateMaze_spanning_tree_witness :
    (2 ≤ 2 ∧ inGrid 2 2 (1, 1))
    ∧ Reach (generateMaze 2 2 (fun _ => 0)) (0, 0) (1, 1)
    ∧ openEdgeCount 2 2 (generateMaze 2 2 (fun _ => 0)) = 2 * 2 - 1 := by
  refine ⟨⟨by norm_num, by constructor <;> norm_num⟩, ?_, ?_⟩
  · exact (generateMaze_spanning_tree 2 2 (by norm_num) (by norm_num) (fun _ => 0)).1
      (1, 1) (by constructor <;> norm_num)
  · exact (generateMaze_spanning_tree 2 2 (by norm_num) (by norm_num) (fun _ => 0)).2

end MindBloom
